import Mathlib

/-!
Verification of task_set/tasks/utils.py, the sampling-and-materialization
layer for randomized training-task configurations.

The Python module draws configuration values from a numpy RandomState and
turns configurations back into runtime objects (TensorFlow initializers,
Sonnet RNN cells, dataset pipelines).  The embedding below models:

  * the random source as a stream of real draws in the half-open unit
    interval, threaded explicitly, mirroring how numpy RandomState
    produces one uniform variate per primitive call;
  * numpy arithmetic (uniform, log, exp, round-half-to-even) over the
    real numbers;
  * external constructors (tf.initializers.*, snt.*, dataset pipeline
    providers) as symbolic applications recording which constructor is
    invoked with which arguments;
  * Python dicts as association lists, Python exceptions as Except/Option.
-/

namespace TaskSetUtils

/-! ## The random source

numpy RandomState is modelled as an infinite stream of draws together
with a cursor.  Each primitive (uniform, choice) consumes one draw.
A valid state yields draws in the half-open interval `[0, 1)`, which is
the range of `rng.uniform(0.0, 1.0)` and of the variates numpy uses
internally for `choice`. -/

structure Rng where
  draws : ℕ → ℝ
  pos : ℕ

def Rng.Valid (r : Rng) : Prop := ∀ i, 0 ≤ r.draws i ∧ r.draws i < 1

/-- Consume one uniform `[0,1)` variate. -/
def Rng.next (r : Rng) : ℝ × Rng := (r.draws r.pos, ⟨r.draws, r.pos + 1⟩)

/-- Advance the cursor by `k` draws without reading them. -/
def Rng.skip (r : Rng) (k : ℕ) : Rng := ⟨r.draws, r.pos + k⟩

/-- `rng.uniform(low, high)`: numpy scales one unit variate affinely,
sampling the half-open interval `[low, high)`. -/
def uniform (r : Rng) (lo hi : ℝ) : ℝ × Rng :=
  let p := r.next
  (lo + p.1 * (hi - lo), p.2)

/-- The element `rng.choice(l)` picks from a unit variate `u`: a uniform
index `floor(u * len(l))`. -/
noncomputable def choosePick {α : Type} [Inhabited α] (l : List α) (u : ℝ) : α :=
  l.getD (Int.toNat ⌊u * (l.length : ℝ)⌋) default

/-- `rng.choice(l)` without probabilities: uniform over the elements. -/
noncomputable def Rng.choice {α : Type} [Inhabited α] (r : Rng) (l : List α) : α × Rng :=
  let p := r.next
  (choosePick l p.1, p.2)

/-- Walk a weighted list, picking the first entry whose weight exceeds the
remaining mass: this is the cumulative-sum search numpy performs for
`rng.choice(names, p=probs)`. -/
noncomputable def wpickAux : List (String × ℝ) → ℝ → String
  | [], _ => ""
  | (a, w) :: t, acc => if acc < w then a else wpickAux t (acc - w)

/-- `rng.choice(names, p=weights/total)`: one unit variate `u` selects the
first name whose cumulative weight exceeds `u * total`. -/
noncomputable def weightedChoice (r : Rng) (l : List (String × ℝ)) : String × Rng :=
  let total := (l.map Prod.snd).sum
  let p := r.next
  (wpickAux l (p.1 * total), p.2)

/-! ## numpy rounding

`np.round` rounds half to even; `int(...)` applied to the already-integral
result of `np.round` is exact, so the composition lands in `ℤ`. -/

noncomputable def npRound (x : ℝ) : ℤ :=
  if Int.fract x = 1 / 2 then (if Even ⌊x⌋ then ⌊x⌋ else ⌊x⌋ + 1) else round x

theorem abs_npRound_sub_le (x : ℝ) : |(npRound x : ℝ) - x| ≤ 1 / 2 := by
  unfold npRound
  split_ifs with h1 h2
  · have hf : x - (⌊x⌋ : ℝ) = 1 / 2 := by
      have := h1
      rw [Int.fract] at this
      linarith [this]
    have : (⌊x⌋ : ℝ) - x = -(1 / 2) := by linarith
    rw [this, abs_le]
    constructor <;> norm_num
  · have hf : x - (⌊x⌋ : ℝ) = 1 / 2 := by
      have := h1
      rw [Int.fract] at this
      linarith [this]
    have : ((⌊x⌋ + 1 : ℤ) : ℝ) - x = 1 / 2 := by push_cast; linarith
    rw [this, abs_le]
    constructor <;> norm_num
  · rw [abs_sub_comm]
    exact abs_sub_round x

/-- Half-to-even rounding of a point of `[a, b)` with integer endpoints
stays in `[a, b]`. -/
theorem npRound_mem_Icc (a b : ℤ) (x : ℝ) (h1 : (a : ℝ) ≤ x) (h2 : x < (b : ℝ)) :
    npRound x ∈ Set.Icc a b := by
  have hb := abs_npRound_sub_le x
  rw [abs_le] at hb
  constructor
  · by_contra hc
    push_neg at hc
    have : npRound x + 1 ≤ a := hc
    have hr : ((npRound x : ℤ) : ℝ) + 1 ≤ (a : ℝ) := by exact_mod_cast this
    linarith
  · by_contra hc
    push_neg at hc
    have : b + 1 ≤ npRound x := hc
    have hr : (b : ℝ) + 1 ≤ ((npRound x : ℤ) : ℝ) := by exact_mod_cast this
    linarith

/-- A uniform draw from a valid source lands in `[lo, hi)`. -/
theorem uniform_mem (r : Rng) (hv : r.Valid) (lo hi : ℝ) (h : lo < hi) :
    lo ≤ (uniform r lo hi).1 ∧ (uniform r lo hi).1 < hi := by
  obtain ⟨h0, h1⟩ := hv r.pos
  constructor
  · simp only [uniform, Rng.next]
    nlinarith
  · simp only [uniform, Rng.next]
    nlinarith

/-! ## The four scalar samplers (source lines 30-52) -/

/-- `sample_log_int`: uniform in log space between the bounds, then
exponentiate and round to the nearest integer. -/
noncomputable def sample_log_int (r : Rng) (low high : ℤ) : ℤ × Rng :=
  let p := uniform r (Real.log (low : ℝ)) (Real.log (high : ℝ))
  (npRound (Real.exp p.1), p.2)

/-- `sample_linear_int`: uniform between the bounds, rounded. -/
noncomputable def sample_linear_int (r : Rng) (low high : ℤ) : ℤ × Rng :=
  let p := uniform r (low : ℝ) (high : ℝ)
  (npRound p.1, p.2)

/-- `sample_log_float`: uniform in log space, exponentiated, not rounded. -/
noncomputable def sample_log_float (r : Rng) (low high : ℝ) : ℝ × Rng :=
  let p := uniform r (Real.log low) (Real.log high)
  (Real.exp p.1, p.2)

/-- `sample_bool(rng, p)`: raise ValueError unless `0 <= p <= 1`, else
compare one uniform `[0,1)` variate against `p`. -/
noncomputable def sample_bool (r : Rng) (p : ℝ) : Except String (Bool × Rng) :=
  if 0 ≤ p ∧ p ≤ 1 then
    let q := uniform r 0 1
    .ok (q.1 < p, q.2)
  else
    .error "p must be between 0 and 1."

theorem sample_log_float_mem (r : Rng) (hv : r.Valid) (a b : ℝ)
    (hpos : 0 < a) (hab : a < b) : (sample_log_float r a b).1 ∈ Set.Icc a b := by
  have hlog : Real.log a < Real.log b := Real.log_lt_log hpos hab
  obtain ⟨hl, hr⟩ := uniform_mem r hv _ _ hlog
  constructor
  · calc a = Real.exp (Real.log a) := (Real.exp_log hpos).symm
      _ ≤ (sample_log_float r a b).1 := Real.exp_le_exp.mpr hl
  · have : (sample_log_float r a b).1 < Real.exp (Real.log b) := Real.exp_lt_exp.mpr hr
    rw [Real.exp_log (lt_trans hpos hab)] at this
    exact le_of_lt this

theorem sample_log_float_pos (r : Rng) (a b : ℝ) : 0 < (sample_log_float r a b).1 :=
  Real.exp_pos _

/-- C8.
For integer bounds `low < high` (positive for the log-scale samplers) and
every valid state of the random source, `sample_log_int` and
`sample_linear_int` return an integer in `[low, high]` inclusive, and for
real bounds `0 < a < b`, `sample_log_float` returns a value in `[a, b]`
inclusive. -/
theorem scalar_samplers_in_range (low high : ℤ) (a b : ℝ) (r1 r2 r3 : Rng)
    (hv1 : r1.Valid) (hv2 : r2.Valid) (hv3 : r3.Valid) :
    (0 < low → low < high → (sample_log_int r1 low high).1 ∈ Set.Icc low high) ∧
    (low < high → (sample_linear_int r2 low high).1 ∈ Set.Icc low high) ∧
    (0 < a → a < b → (sample_log_float r3 a b).1 ∈ Set.Icc a b) := by
  refine ⟨fun hpos hlt => ?_, fun hlt => ?_, fun hpos hlt => ?_⟩
  · have hposR : (0 : ℝ) < (low : ℝ) := by exact_mod_cast hpos
    have hltR : (low : ℝ) < (high : ℝ) := by exact_mod_cast hlt
    have hlog : Real.log (low : ℝ) < Real.log (high : ℝ) := Real.log_lt_log hposR hltR
    obtain ⟨hl, hr⟩ := uniform_mem r1 hv1 _ _ hlog
    refine npRound_mem_Icc low high _ ?_ ?_
    · calc (low : ℝ) = Real.exp (Real.log (low : ℝ)) := (Real.exp_log hposR).symm
        _ ≤ _ := Real.exp_le_exp.mpr hl
    · have h2 : Real.exp (uniform r1 (Real.log (low : ℝ)) (Real.log (high : ℝ))).1 <
          Real.exp (Real.log (high : ℝ)) := Real.exp_lt_exp.mpr hr
      rwa [Real.exp_log (lt_trans hposR hltR)] at h2
  · have hltR : (low : ℝ) < (high : ℝ) := by exact_mod_cast hlt
    obtain ⟨hl, hr⟩ := uniform_mem r2 hv2 _ _ hltR
    exact npRound_mem_Icc low high _ hl hr
  · exact sample_log_float_mem r3 hv3 a b hpos hlt

/-- A concrete all-zero random source, used to instantiate the theorems. -/
def zeroRng : Rng := ⟨fun _ => 0, 0⟩

theorem zeroRng_valid : zeroRng.Valid := by
  intro i
  constructor <;> norm_num [zeroRng]

/-- Witness for C8 at `low = 8`, `high = 512`, `a = 1/10`, `b = 10`. -/
theorem scalar_samplers_in_range_witness :
    (0 : ℤ) < 8 ∧ (8 : ℤ) < 512 ∧ (0 : ℝ) < 1 / 10 ∧ (1 / 10 : ℝ) < 10 ∧
    (sample_log_int zeroRng 8 512).1 ∈ Set.Icc (8 : ℤ) 512 ∧
    (sample_linear_int zeroRng 8 512).1 ∈ Set.Icc (8 : ℤ) 512 ∧
    (sample_log_float zeroRng (1 / 10) 10).1 ∈ Set.Icc (1 / 10 : ℝ) 10 := by
  obtain ⟨h1, h2, h3⟩ := scalar_samplers_in_range 8 512 (1 / 10) 10 zeroRng zeroRng zeroRng
    zeroRng_valid zeroRng_valid zeroRng_valid
  exact ⟨by norm_num, by norm_num, by norm_num, by norm_num,
    h1 (by norm_num) (by norm_num), h2 (by norm_num), h3 (by norm_num) (by norm_num)⟩

/-- C7.
`sample_bool(rng, p)` raises ValueError for every `p` outside `[0,1]`;
for `p ∈ [0,1]` it returns, without raising, the boolean comparing one
uniform unit variate against `p` — a variate that falls below `p` on a
subset of `[0,1)` of measure exactly `p`. -/
theorem sample_bool_spec (r : Rng) (p : ℝ) :
    ((p < 0 ∨ 1 < p) → sample_bool r p = .error "p must be between 0 and 1.") ∧
    (0 ≤ p → p ≤ 1 →
      sample_bool r p = .ok (decide (r.draws r.pos < p), ⟨r.draws, r.pos + 1⟩) ∧
      MeasureTheory.volume {u : ℝ | u ∈ Set.Ico (0 : ℝ) 1 ∧ u < p} =
        ENNReal.ofReal p) := by
  constructor
  · intro hbad
    rw [sample_bool, if_neg]
    rintro ⟨ha, hb⟩
    rcases hbad with h | h
    · linarith
    · linarith
  · intro h0 h1
    constructor
    · rw [sample_bool, if_pos ⟨h0, h1⟩]
      simp only [uniform, Rng.next]
      norm_num
    · have hset : {u : ℝ | u ∈ Set.Ico (0 : ℝ) 1 ∧ u < p} = Set.Ico (0 : ℝ) p := by
        ext u
        simp only [Set.mem_setOf_eq, Set.mem_Ico]
        constructor
        · rintro ⟨⟨hu0, _⟩, hup⟩
          exact ⟨hu0, hup⟩
        · rintro ⟨hu0, hup⟩
          exact ⟨⟨hu0, lt_of_lt_of_le hup h1⟩, hup⟩
      rw [hset, Real.volume_Ico, sub_zero]

/-- Witness for C7 at `p = 2` (raises) and `p = 1/2` (returns). -/
theorem sample_bool_spec_witness :
    sample_bool zeroRng 2 = .error "p must be between 0 and 1." ∧
    sample_bool zeroRng (1 / 2) =
      .ok (decide (zeroRng.draws zeroRng.pos < 1 / 2), ⟨zeroRng.draws, zeroRng.pos + 1⟩) ∧
    MeasureTheory.volume {u : ℝ | u ∈ Set.Ico (0 : ℝ) 1 ∧ u < 1 / 2} =
      ENNReal.ofReal (1 / 2) := by
  obtain ⟨herr, _⟩ := sample_bool_spec zeroRng 2
  obtain ⟨_, hok⟩ := sample_bool_spec zeroRng (1 / 2)
  obtain ⟨hval, hvol⟩ := hok (by norm_num) (by norm_num)
  exact ⟨herr (Or.inr (by norm_num)), hval, hvol⟩

/-! ## Initializers (source lines 100-152)

An external TensorFlow constructor invocation is recorded symbolically as
the constructor name together with the list of scalar arguments passed. -/

structure App where
  ctor : String
  args : List ℝ

/-- One entry of `_initializer_name_map`: the sampling weight, whether a
`sample_fn` is present (all present ones are `sample_log_float rng 0.1 10`),
and the behaviour of `fn` when called with no argument (`none` models the
TypeError a one-parameter lambda raises on a zero-argument call) or with
one scalar argument. -/
structure InitEntry where
  weight : ℝ
  hasScale : Bool
  call0 : Option App
  call1 : ℝ → App

/-- Python dict lookup: first (here: only) binding of the key. -/
def dlookup {α : Type} : List (String × α) → String → Option α
  | [], _ => none
  | (k, v) :: t, key => if k = key then some v else dlookup t key

/-- `_initializer_name_map`, written in the sorted key order that
`sample_initializer` iterates in (the source dict lists he_* and glorot_*
first; lookup and sorted iteration are both order-independent here).
`truncated_normal` and `random_normal` both build
`tf.initializers.random_normal(stddev=s)`; `random_uniform` builds
`tf.initializers.random_uniform(-s, s)`; the remaining entries invoke the
named constructor directly. -/
def initializerCatalog : List (String × InitEntry) :=
  [("glorot_normal", ⟨2, false, some ⟨"glorot_normal", []⟩, fun x => ⟨"glorot_normal", [x]⟩⟩),
   ("glorot_uniform", ⟨2, false, some ⟨"glorot_uniform", []⟩, fun x => ⟨"glorot_uniform", [x]⟩⟩),
   ("he_normal", ⟨2, false, some ⟨"he_normal", []⟩, fun x => ⟨"he_normal", [x]⟩⟩),
   ("he_uniform", ⟨2, false, some ⟨"he_uniform", []⟩, fun x => ⟨"he_uniform", [x]⟩⟩),
   ("orthogonal", ⟨1, true, some ⟨"orthogonal", []⟩, fun x => ⟨"orthogonal", [x]⟩⟩),
   ("random_normal", ⟨1, true, none, fun s => ⟨"random_normal", [s]⟩⟩),
   ("random_uniform", ⟨1, true, none, fun s => ⟨"random_uniform", [-s, s]⟩⟩),
   ("truncated_normal", ⟨1, true, none, fun s => ⟨"random_normal", [s]⟩⟩),
   ("variance_scaling", ⟨1, true, some ⟨"variance_scaling", []⟩, fun x => ⟨"variance_scaling", [x]⟩⟩)]

/-- `make_fn()`: invoke the entry constructor with no arguments. -/
def callNoArg (e : InitEntry) : Except String App :=
  match e.call0 with
  | some a => .ok a
  | none => .error "TypeError: missing positional argument"

/-- `make_fn(arg) if arg else make_fn()`: Python truthiness makes both
`None` and `0.0` take the no-argument branch. -/
noncomputable def applyArg (e : InitEntry) : Option ℝ → Except String App
  | some x => if x = 0 then callNoArg e else .ok (e.call1 x)
  | none => callNoArg e

/-- `get_initializer(cfg)`: look the name up (KeyError when absent), then
invoke the constructor through the truthiness dispatch above. -/
noncomputable def get_initializer (cfg : String × Option ℝ) : Except String App :=
  match dlookup initializerCatalog cfg.1 with
  | none => .error ("KeyError: " ++ cfg.1)
  | some e => applyArg e cfg.2

theorem dlookup_orthogonal : dlookup initializerCatalog "orthogonal" =
    some ⟨1, true, some ⟨"orthogonal", []⟩, fun x => ⟨"orthogonal", [x]⟩⟩ := rfl

theorem dlookup_truncated_normal : dlookup initializerCatalog "truncated_normal" =
    some ⟨1, true, none, fun s => ⟨"random_normal", [s]⟩⟩ := rfl

theorem dlookup_random_normal : dlookup initializerCatalog "random_normal" =
    some ⟨1, true, none, fun s => ⟨"random_normal", [s]⟩⟩ := rfl

/-- C4 counterexample: the config `("orthogonal", 0.0)` has its parameter
present, yet `get_initializer` does not invoke the constructor with it —
`0.0` is falsy, so the no-argument branch runs. -/
theorem get_initializer_zero_param_not_applied :
    get_initializer ("orthogonal", some 0) ≠ .ok (App.mk "orthogonal" [0]) := by
  unfold get_initializer
  rw [dlookup_orthogonal]
  show applyArg _ (some 0) ≠ _
  simp [applyArg, callNoArg]

/-- C4 (amended).
For every initializer config whose name is in the catalog,
`get_initializer` invokes that name's constructor with the parameter
whenever the parameter is present and nonzero, and with no arguments
whenever the parameter is absent or equal to `0.0` (Python truthiness
treats `0.0` like `None` here). -/
theorem get_initializer_invocation (name : String) (e : InitEntry) (x : ℝ)
    (hname : dlookup initializerCatalog name = some e) :
    (x ≠ 0 → get_initializer (name, some x) = .ok (e.call1 x)) ∧
    get_initializer (name, some 0) = callNoArg e ∧
    get_initializer (name, none) = callNoArg e := by
  refine ⟨fun hx => ?_, ?_, ?_⟩ <;> (unfold get_initializer; rw [hname])
  · show applyArg e (some x) = _
    simp [applyArg, hx]
  · show applyArg e (some 0) = _
    simp [applyArg]
  · rfl

/-- Witness for C4 at `("orthogonal", 5)` and the two no-argument cases. -/
theorem get_initializer_invocation_witness :
    get_initializer ("orthogonal", some 5) = .ok (App.mk "orthogonal" [5]) ∧
    get_initializer ("orthogonal", some 0) = .ok (App.mk "orthogonal" []) ∧
    get_initializer ("orthogonal", none) = .ok (App.mk "orthogonal" []) := by
  obtain ⟨h1, h2, h3⟩ := get_initializer_invocation "orthogonal"
    ⟨1, true, some ⟨"orthogonal", []⟩, fun x => ⟨"orthogonal", [x]⟩⟩ 5 (by rfl)
  exact ⟨h1 (by norm_num), h2, h3⟩

/-- C10 counterexample: at scale `s = 0` the `truncated_normal` entry does
not produce the application `random_normal(stddev=0)`; the falsy argument
routes to the zero-argument call of a one-parameter lambda, a TypeError. -/
theorem truncated_normal_zero_scale_raises :
    get_initializer ("truncated_normal", some 0) ≠ .ok (App.mk "random_normal" [0]) := by
  unfold get_initializer
  rw [dlookup_truncated_normal]
  show applyArg _ (some 0) ≠ _
  simp [applyArg, callNoArg]

/-- C10 (amended).
The catalog entries for `truncated_normal` and `random_normal` are
extensionally equal: `get_initializer` maps any parameter to the very same
outcome for both names, and for every nonzero scale `s` that common outcome
is the application `random_normal(stddev=s)`.  (At `s = 0` or an absent
parameter both identically raise the same TypeError, rather than invoking
the constructor with the scale.) -/
theorem truncated_normal_eq_random_normal :
    (∀ arg : Option ℝ,
      get_initializer ("truncated_normal", arg) = get_initializer ("random_normal", arg)) ∧
    (∀ s : ℝ, s ≠ 0 →
      get_initializer ("truncated_normal", some s) = .ok (App.mk "random_normal" [s])) := by
  constructor
  · rintro (_ | x)
    · rfl
    · unfold get_initializer
      rw [dlookup_truncated_normal, dlookup_random_normal]
  · intro s hs
    unfold get_initializer
    rw [dlookup_truncated_normal]
    show applyArg _ (some s) = _
    simp [applyArg, hs]

/-- Witness for C10 at `s = 3`. -/
theorem truncated_normal_eq_random_normal_witness :
    get_initializer ("truncated_normal", some 3) = get_initializer ("random_normal", some 3) ∧
    get_initializer ("truncated_normal", some 3) = .ok (App.mk "random_normal" [3]) :=
  ⟨truncated_normal_eq_random_normal.1 (some 3),
   truncated_normal_eq_random_normal.2 3 (by norm_num)⟩

/-! ## Activations (source lines 73-97)

`_activation_fn_map` holds `(weight, callable)` pairs; the callable is
recorded symbolically by its name.  The list below is written in the
sorted key order that `sample_activation` iterates in. -/

def activationWeights : List (String × ℝ) :=
  [("cos", 1), ("elu", 1), ("leaky_relu1", 1), ("leaky_relu2", 1), ("leaky_relu4", 1),
   ("relu", 6), ("sigmoid", 1), ("swish", 1), ("tanh", 3)]

/-- `sample_activation`: weighted categorical choice over the sorted names. -/
noncomputable def sample_activation (r : Rng) : String × Rng :=
  weightedChoice r activationWeights

/-- `get_activation(name)`: the callable under the name, `KeyError` when
absent; the callable is represented by its own name. -/
def get_activation (name : String) : Option String :=
  (dlookup activationWeights name).map (fun _ => name)

/-! ## `sample_initializer` (source lines 131-138) -/

def initializerWeights : List (String × ℝ) :=
  initializerCatalog.map (fun e => (e.1, e.2.weight))

/-- `sample_initializer`: weighted categorical choice over the sorted
names, then run the entry `sample_fn` when present — every present
`sample_fn` is `sample_log_float(rng, 0.1, 10)`. -/
noncomputable def sample_initializer (r : Rng) : (String × Option ℝ) × Rng :=
  let p := weightedChoice r initializerWeights
  match dlookup initializerCatalog p.1 with
  | some e =>
    if e.hasScale then
      let q := sample_log_float p.2 (1 / 10) 10
      ((p.1, some q.1), q.2)
    else ((p.1, none), p.2)
  | none => ((p.1, none), p.2)

theorem initializerWeights_sum : (initializerWeights.map Prod.snd).sum = 13 := by
  norm_num [initializerWeights, initializerCatalog]

/-- With total mass `13` and remaining mass below the total, the
cumulative-sum walk lands on one of the nine catalog names. -/
theorem wpick_init_mem (c : ℝ) (h13 : c < 13) :
    wpickAux initializerWeights c ∈
      (["glorot_normal", "glorot_uniform", "he_normal", "he_uniform", "orthogonal",
        "random_normal", "random_uniform", "truncated_normal", "variance_scaling"] :
        List String) := by
  simp only [initializerWeights, initializerCatalog, List.map, wpickAux]
  split_ifs with h1 h2 h3 h4 h5 h6 h7 h8 h9 <;> simp
  linarith

/-- A truthy (nonzero, present) parameter is passed straight to the
entry constructor. -/
theorem get_initializer_some_ne (name : String) (e : InitEntry) (x : ℝ)
    (hname : dlookup initializerCatalog name = some e) (hx : x ≠ 0) :
    get_initializer (name, some x) = .ok (e.call1 x) := by
  unfold get_initializer
  rw [hname]
  show applyArg e (some x) = _
  simp [applyArg, hx]

/-- A sampled initializer config always materializes: its name is in the
catalog and its parameter, when present, is a positive scale, so
`get_initializer` succeeds on every output of `sample_initializer`. -/
theorem sample_initializer_get_ok (r : Rng) (hv : r.Valid) :
    ∃ a : App, get_initializer (sample_initializer r).1 = .ok a := by
  obtain ⟨hu0, hu1⟩ := hv r.pos
  have hname : (weightedChoice r initializerWeights).1 =
      wpickAux initializerWeights (r.draws r.pos * 13) := by
    simp only [weightedChoice, Rng.next, initializerWeights_sum]
  have hmem := wpick_init_mem (r.draws r.pos * 13) (by nlinarith)
  rw [← hname] at hmem
  have hexp : (0 : ℝ) <
      (sample_log_float (weightedChoice r initializerWeights).2 (1 / 10) 10).1 :=
    sample_log_float_pos _ _ _
  simp only [List.mem_cons, List.not_mem_nil, or_false] at hmem
  rcases hmem with h | h | h | h | h | h | h | h | h <;>
    (simp only [sample_initializer]
     rw [h]) <;>
    first
      | exact ⟨_, rfl⟩
      | exact ⟨_, get_initializer_some_ne _ _ _ rfl (ne_of_gt hexp)⟩

/-! ## RNN cores (source lines 155-237)

The heterogeneous values of the `args` dict built by `sample_rnn_core`:
initializer configs, an activation name, and the hidden dimension. -/

inductive CoreArg where
  | init (c : String × Option ℝ)
  | act (a : String)
  | dim (d : ℤ)

instance : Inhabited CoreArg := ⟨CoreArg.dim 0⟩

/-- `sample_rnn_core`: choose the core kind uniformly from
`["vrnn", "gru", "lstm"]`, choose the `linked` flag from
`[True, True, True, True, False]` (linking up-weighted four to one), then
fill the kind's argument dict in source order. -/
noncomputable def sample_rnn_core (r : Rng) : (String × List (String × CoreArg)) × Rng :=
  let c := r.choice ["vrnn", "gru", "lstm"]
  let core := c.1
  let lk := c.2.choice [true, true, true, true, false]
  let linked := lk.1
  let r2 := lk.2
  if core = "vrnn" then
    if linked then
      let i := sample_initializer r2
      let a := sample_activation i.2
      let d := sample_log_int a.2 32 128
      ((core, [("hidden_to_hidden", .init i.1), ("in_to_hidden", .init i.1),
               ("act_fn", .act a.1), ("core_dim", .dim d.1)]), d.2)
    else
      let i1 := sample_initializer r2
      let i2 := sample_initializer i1.2
      let a := sample_activation i2.2
      let d := sample_log_int a.2 32 128
      ((core, [("hidden_to_hidden", .init i1.1), ("in_to_hidden", .init i2.1),
               ("act_fn", .act a.1), ("core_dim", .dim d.1)]), d.2)
  else if core = "gru" then
    let d := sample_log_int r2 32 128
    if linked then
      let i := sample_initializer d.2
      ((core, [("core_dim", .dim d.1), ("wh", .init i.1), ("wz", .init i.1),
               ("wr", .init i.1), ("uh", .init i.1), ("uz", .init i.1),
               ("ur", .init i.1)]), i.2)
    else
      let i1 := sample_initializer d.2
      let i2 := sample_initializer i1.2
      let i3 := sample_initializer i2.2
      let i4 := sample_initializer i3.2
      let i5 := sample_initializer i4.2
      let i6 := sample_initializer i5.2
      ((core, [("core_dim", .dim d.1), ("wh", .init i1.1), ("wz", .init i2.1),
               ("wr", .init i3.1), ("uh", .init i4.1), ("uz", .init i5.1),
               ("ur", .init i6.1)]), i6.2)
  else if core = "lstm" then
    let i := sample_initializer r2
    let d := sample_log_int i.2 32 128
    ((core, [("w_gates", .init i.1), ("core_dim", .dim d.1)]), d.2)
  else
    ((core, []), r2)

/-- A constructed Sonnet module, recorded symbolically. -/
inductive SntCore where
  | lstmCore (d : ℤ) (w : App)
  | gruCore (d : ℤ) (inits : List (String × App))
  | vrnnCore (d : ℤ) (inToHidden : App) (hiddenToHidden : App) (actFn : String)

/-- `args[k]` expected to hold an initializer config: KeyError when the
key is missing, TypeError when it holds a value of the wrong shape. -/
def getInitArg (args : List (String × CoreArg)) (k : String) :
    Except String (String × Option ℝ) :=
  match dlookup args k with
  | some (.init c) => .ok c
  | some _ => .error ("TypeError: " ++ k)
  | none => .error ("KeyError: " ++ k)

/-- `args[k]` expected to hold the hidden dimension. -/
def getDimArg (args : List (String × CoreArg)) (k : String) : Except String ℤ :=
  match dlookup args k with
  | some (.dim d) => .ok d
  | some _ => .error ("TypeError: " ++ k)
  | none => .error ("KeyError: " ++ k)

/-- `args[k]` expected to hold an activation name. -/
def getActArg (args : List (String × CoreArg)) (k : String) : Except String String :=
  match dlookup args k with
  | some (.act a) => .ok a
  | some _ => .error ("TypeError: " ++ k)
  | none => .error ("KeyError: " ++ k)

/-- `get_rnn_core(cfg)`: materialize the Sonnet cell for the config,
performing the same dict lookups, `get_initializer`/`get_activation`
calls and constructor invocation as the source, in source order; an
unknown kind raises ValueError. -/
noncomputable def get_rnn_core (cfg : String × List (String × CoreArg)) :
    Except String SntCore :=
  if cfg.1 = "lstm" then do
    let w ← getInitArg cfg.2 "w_gates"
    let wi ← get_initializer w
    let d ← getDimArg cfg.2 "core_dim"
    return SntCore.lstmCore d wi
  else if cfg.1 = "gru" then do
    let a1 ← getInitArg cfg.2 "wh"
    let i1 ← get_initializer a1
    let a2 ← getInitArg cfg.2 "wz"
    let i2 ← get_initializer a2
    let a3 ← getInitArg cfg.2 "wr"
    let i3 ← get_initializer a3
    let a4 ← getInitArg cfg.2 "uh"
    let i4 ← get_initializer a4
    let a5 ← getInitArg cfg.2 "uz"
    let i5 ← get_initializer a5
    let a6 ← getInitArg cfg.2 "ur"
    let i6 ← get_initializer a6
    let d ← getDimArg cfg.2 "core_dim"
    return SntCore.gruCore d
      [("wh", i1), ("wz", i2), ("wr", i3), ("uh", i4), ("uz", i5), ("ur", i6)]
  else if cfg.1 = "vrnn" then do
    let a ← getInitArg cfg.2 "in_to_hidden"
    let ia ← get_initializer a
    let b ← getInitArg cfg.2 "hidden_to_hidden"
    let ib ← get_initializer b
    let act ←
      match getActArg cfg.2 "act_fn" with
      | .ok nm =>
        match get_activation nm with
        | some f => Except.ok f
        | none => Except.error ("KeyError: " ++ nm)
      | .error e => Except.error e
    let d ← getDimArg cfg.2 "core_dim"
    return SntCore.vrnnCore d ia ib act
  else
    .error ("No core for name [" ++ cfg.1 ++ "] found.")

def isOkE {ε α : Type} : Except ε α → Bool
  | .ok _ => true
  | .error _ => false

/-- The random state returned by `sample_initializer` reads from the same
stream, so validity is preserved. -/
theorem sample_initializer_valid (r : Rng) (hv : r.Valid) :
    (sample_initializer r).2.Valid := by
  unfold sample_initializer
  dsimp only
  split
  · split_ifs <;> exact hv
  · exact hv

/-- Picking from `[True, True, True, True, False]` with a unit variate
lands on `True` exactly when the variate is below `4/5`. -/
theorem linked_pick_iff (u : ℝ) (h0 : 0 ≤ u) (h1 : u < 1) :
    choosePick [true, true, true, true, false] u = true ↔ u < 4 / 5 := by
  unfold choosePick
  have hlen : ((([true, true, true, true, false] : List Bool).length : ℕ) : ℝ) = 5 := by
    norm_num
  rw [hlen]
  constructor
  · intro hres
    by_contra hge
    push_neg at hge
    have h4 : (4 : ℤ) ≤ ⌊u * 5⌋ := Int.le_floor.mpr (by push_cast; nlinarith)
    have h5 : ⌊u * 5⌋ < 5 := Int.floor_lt.mpr (by push_cast; nlinarith)
    have h45 : (⌊u * 5⌋).toNat = 4 := by omega
    rw [h45] at hres
    simp [List.getD] at hres
  · intro hlt
    have h0f : (0 : ℤ) ≤ ⌊u * 5⌋ := Int.floor_nonneg.mpr (by nlinarith)
    have h4 : ⌊u * 5⌋ < 4 := Int.floor_lt.mpr (by push_cast; nlinarith)
    have hk : (⌊u * 5⌋).toNat < 4 := by omega
    set k := (⌊u * 5⌋).toNat with hkdef
    interval_cases k <;> rfl

/-- C6.
For every valid random source whose first draw forces the core-kind
choice to `"lstm"`, `sample_rnn_core` returns `("lstm", args)` where
`args` holds exactly the keys `w_gates` (an initializer config, name plus
optional scale) and `core_dim` (an integer in `[32, 128]`), and
`get_rnn_core` on that output does not raise. -/
theorem sample_rnn_core_lstm (r : Rng) (hv : r.Valid)
    (hlstm : (r.choice ["vrnn", "gru", "lstm"]).1 = "lstm") :
    sample_rnn_core r =
      (("lstm",
        [("w_gates", CoreArg.init (sample_initializer (r.skip 2)).1),
         ("core_dim", CoreArg.dim (sample_log_int (sample_initializer (r.skip 2)).2 32 128).1)]),
       (sample_log_int (sample_initializer (r.skip 2)).2 32 128).2) ∧
    (sample_rnn_core r).1.2.map Prod.fst = ["w_gates", "core_dim"] ∧
    32 ≤ (sample_log_int (sample_initializer (r.skip 2)).2 32 128).1 ∧
    (sample_log_int (sample_initializer (r.skip 2)).2 32 128).1 ≤ 128 ∧
    isOkE (get_rnn_core (sample_rnn_core r).1) = true := by
  have hvskip : (r.skip 2).Valid := hv
  have hvinit : ((sample_initializer (r.skip 2)).2).Valid :=
    sample_initializer_valid _ hvskip
  have hrange := (scalar_samplers_in_range 32 128 1 2
    ((sample_initializer (r.skip 2)).2) zeroRng zeroRng hvinit zeroRng_valid
    zeroRng_valid).1 (by norm_num) (by norm_num)
  have hmain : sample_rnn_core r =
      (("lstm",
        [("w_gates", CoreArg.init (sample_initializer (r.skip 2)).1),
         ("core_dim", CoreArg.dim (sample_log_int (sample_initializer (r.skip 2)).2 32 128).1)]),
       (sample_log_int (sample_initializer (r.skip 2)).2 32 128).2) := by
    simp only [sample_rnn_core]
    rw [hlstm]
    rw [if_neg (by decide : ¬("lstm" : String) = "vrnn"),
        if_neg (by decide : ¬("lstm" : String) = "gru"),
        if_pos (rfl : ("lstm" : String) = "lstm")]
    rfl
  obtain ⟨a, ha⟩ := sample_initializer_get_ok (r.skip 2) hvskip
  refine ⟨hmain, ?_, hrange.1, hrange.2, ?_⟩
  · rw [hmain]
    rfl
  · rw [hmain]
    simp [get_rnn_core, getInitArg, getDimArg, dlookup, Except.bind, Bind.bind,
      Monad.toBind, Except.instMonad, Except.map, Except.pure, ha, isOkE]

/-- A constant stream, used to instantiate sampling theorems. -/
def constRng (x : ℝ) : Rng := ⟨fun _ => x, 0⟩

theorem constRng_valid (x : ℝ) (h0 : 0 ≤ x) (h1 : x < 1) : (constRng x).Valid :=
  fun _ => ⟨h0, h1⟩

/-- On the constant-`3/4` stream the first core-kind draw selects
index `⌊3/4 * 3⌋ = 2`, which is `"lstm"`. -/
theorem constRng_choice_lstm :
    ((constRng (3 / 4)).choice ["vrnn", "gru", "lstm"]).1 = "lstm" := by
  simp only [Rng.choice, Rng.next, choosePick, constRng]
  norm_num
  rfl

/-- Witness for C6 on the constant-`3/4` stream. -/
theorem sample_rnn_core_lstm_witness :
    (sample_rnn_core (constRng (3 / 4))).1.1 = "lstm" ∧
    (sample_rnn_core (constRng (3 / 4))).1.2.map Prod.fst = ["w_gates", "core_dim"] ∧
    32 ≤ (sample_log_int (sample_initializer ((constRng (3 / 4)).skip 2)).2 32 128).1 ∧
    (sample_log_int (sample_initializer ((constRng (3 / 4)).skip 2)).2 32 128).1 ≤ 128 ∧
    isOkE (get_rnn_core (sample_rnn_core (constRng (3 / 4))).1) = true := by
  obtain ⟨hmain, hkeys, hlo, hhi, hok⟩ := sample_rnn_core_lstm (constRng (3 / 4))
    (constRng_valid (3 / 4) (by norm_num) (by norm_num)) constRng_choice_lstm
  exact ⟨by rw [hmain], hkeys, hlo, hhi, hok⟩

/-- `n + 1` successive `sample_initializer` calls starting from `r`:
index `n` is the `(n+1)`-st sampled config together with the state after
it. -/
noncomputable def initChain (r : Rng) : ℕ → ((String × Option ℝ) × Rng)
  | 0 => sample_initializer r
  | n + 1 => sample_initializer (initChain r n).2

/-- C5.
`sample_rnn_core` draws the `linked` decision from
`[True, True, True, True, False]`, so it links with probability `4/5`:
the decision is true exactly when the second unit variate falls in
`[0, 4/5)`, a set of measure `4/5`.  When the core kind is `"gru"` and the
decision is true, one shared sampled initializer config fills all six
slots `wh, wz, wr, uh, uz, ur`; when it is false the six slots are six
successive independent `sample_initializer` calls. -/
theorem sample_rnn_core_gru_linking (r : Rng) (hv : r.Valid)
    (hgru : (r.choice ["vrnn", "gru", "lstm"]).1 = "gru") :
    (((r.choice ["vrnn", "gru", "lstm"]).2.choice [true, true, true, true, false]).1 = true ↔
      r.draws (r.pos + 1) < 4 / 5) ∧
    MeasureTheory.volume
      {u : ℝ | u ∈ Set.Ico (0 : ℝ) 1 ∧ choosePick [true, true, true, true, false] u = true} =
      ENNReal.ofReal (4 / 5) ∧
    (((r.choice ["vrnn", "gru", "lstm"]).2.choice [true, true, true, true, false]).1 = true →
      sample_rnn_core r =
        (("gru",
          [("core_dim", CoreArg.dim (sample_log_int (r.skip 2) 32 128).1),
           ("wh", CoreArg.init (initChain (sample_log_int (r.skip 2) 32 128).2 0).1),
           ("wz", CoreArg.init (initChain (sample_log_int (r.skip 2) 32 128).2 0).1),
           ("wr", CoreArg.init (initChain (sample_log_int (r.skip 2) 32 128).2 0).1),
           ("uh", CoreArg.init (initChain (sample_log_int (r.skip 2) 32 128).2 0).1),
           ("uz", CoreArg.init (initChain (sample_log_int (r.skip 2) 32 128).2 0).1),
           ("ur", CoreArg.init (initChain (sample_log_int (r.skip 2) 32 128).2 0).1)]),
         (initChain (sample_log_int (r.skip 2) 32 128).2 0).2)) ∧
    (((r.choice ["vrnn", "gru", "lstm"]).2.choice [true, true, true, true, false]).1 = false →
      sample_rnn_core r =
        (("gru",
          [("core_dim", CoreArg.dim (sample_log_int (r.skip 2) 32 128).1),
           ("wh", CoreArg.init (initChain (sample_log_int (r.skip 2) 32 128).2 0).1),
           ("wz", CoreArg.init (initChain (sample_log_int (r.skip 2) 32 128).2 1).1),
           ("wr", CoreArg.init (initChain (sample_log_int (r.skip 2) 32 128).2 2).1),
           ("uh", CoreArg.init (initChain (sample_log_int (r.skip 2) 32 128).2 3).1),
           ("uz", CoreArg.init (initChain (sample_log_int (r.skip 2) 32 128).2 4).1),
           ("ur", CoreArg.init (initChain (sample_log_int (r.skip 2) 32 128).2 5).1)]),
         (initChain (sample_log_int (r.skip 2) 32 128).2 5).2)) := by
  obtain ⟨hd0, hd1⟩ := hv (r.pos + 1)
  refine ⟨?_, ?_, ?_, ?_⟩
  · show choosePick [true, true, true, true, false] (r.draws (r.pos + 1)) = true ↔ _
    exact linked_pick_iff _ hd0 hd1
  · have hset : {u : ℝ | u ∈ Set.Ico (0 : ℝ) 1 ∧
        choosePick [true, true, true, true, false] u = true} = Set.Ico (0 : ℝ) (4 / 5) := by
      ext u
      simp only [Set.mem_setOf_eq, Set.mem_Ico]
      constructor
      · rintro ⟨⟨h0, h1⟩, hc⟩
        exact ⟨h0, (linked_pick_iff u h0 h1).mp hc⟩
      · rintro ⟨h0, hc⟩
        have h1 : u < 1 := lt_of_lt_of_le hc (by norm_num)
        exact ⟨⟨h0, h1⟩, (linked_pick_iff u h0 h1).mpr hc⟩
    rw [hset, Real.volume_Ico, sub_zero]
  · intro hl
    simp only [sample_rnn_core]
    rw [hgru, hl]
    rw [if_neg (by decide : ¬("gru" : String) = "vrnn"),
        if_pos (rfl : ("gru" : String) = "gru"),
        if_pos (rfl : (true : Bool) = true)]
    rfl
  · intro hl
    simp only [sample_rnn_core]
    rw [hgru, hl]
    rw [if_neg (by decide : ¬("gru" : String) = "vrnn"),
        if_pos (rfl : ("gru" : String) = "gru"),
        if_neg (by decide : ¬(false : Bool) = true)]
    rfl

/-- On the constant-`1/2` stream the first core-kind draw selects
index `⌊1/2 * 3⌋ = 1`, which is `"gru"`. -/
theorem constRng_choice_gru :
    ((constRng (1 / 2)).choice ["vrnn", "gru", "lstm"]).1 = "gru" := by
  simp only [Rng.choice, Rng.next, choosePick, constRng]
  norm_num

/-- Witness for C5 on the constant-`1/2` stream: the core draw forces
`"gru"`, the linked draw is true, and all six slots share one config. -/
theorem sample_rnn_core_gru_linking_witness :
    (((constRng (1 / 2)).choice ["vrnn", "gru", "lstm"]).2.choice
        [true, true, true, true, false]).1 = true ∧
    MeasureTheory.volume
      {u : ℝ | u ∈ Set.Ico (0 : ℝ) 1 ∧ choosePick [true, true, true, true, false] u = true} =
      ENNReal.ofReal (4 / 5) ∧
    (sample_rnn_core (constRng (1 / 2))).1.1 = "gru" ∧
    dlookup (sample_rnn_core (constRng (1 / 2))).1.2 "wh" =
      dlookup (sample_rnn_core (constRng (1 / 2))).1.2 "ur" := by
  obtain ⟨hiff, hvol, hlink, _⟩ := sample_rnn_core_gru_linking (constRng (1 / 2))
    (constRng_valid (1 / 2) (by norm_num) (by norm_num)) constRng_choice_gru
  have hl := hiff.mpr (by norm_num [constRng])
  refine ⟨hl, hvol, ?_, ?_⟩
  · rw [hlink hl]
  · rw [hlink hl]
    rfl

/-! ## Image augmentation (source lines 240-292)

A TensorFlow image tensor is recorded symbolically: a source tensor with
its static shape, wrapped by the `tf.image` operations applied to it.
`shape` mirrors `img.shape.as_list()` — `random_crop` sets the target
shape, flips and color jitter preserve it. -/

inductive Img where
  | src (h w c : ℤ)
  | randomCrop (h w c : ℤ) (i : Img)
  | flipLR (i : Img)
  | flipUD (i : Img)
  | brightness (maxDelta : ℝ) (i : Img)
  | saturation (lo hi : ℝ) (i : Img)
  | hue (maxDelta : ℝ) (i : Img)
  | contrast (lo hi : ℝ) (i : Img)

def Img.shape : Img → ℤ × ℤ × ℤ
  | .src h w c => (h, w, c)
  | .randomCrop h w c _ => (h, w, c)
  | .flipLR i => i.shape
  | .flipUD i => i.shape
  | .brightness _ i => i.shape
  | .saturation _ _ i => i.shape
  | .hue _ i => i.shape
  | .contrast _ _ i => i.shape

/-- The eight fields drawn by `sample_augmentation`. -/
structure AugCfg where
  crop_amount : ℤ
  flip_left_right : Bool
  flip_up_down : Bool
  do_color_aug : Bool
  brightness : ℝ
  saturation : ℝ
  hue : ℝ
  contrast : ℝ

/-- The image-pipeline part of the closure returned by
`get_augmentation`: optional crop (Python truthiness on the int:
any nonzero amount crops, using the shape read before cropping), the two
optional flips, and — only for 3-channel images with the color flag set —
brightness, saturation, hue and contrast jitter in that order. -/
noncomputable def augmentImage (cfg : AugCfg) (img0 : Img) : Img :=
  let channels := img0.shape.2.2
  let img1 :=
    if cfg.crop_amount ≠ 0 then
      Img.randomCrop (img0.shape.1 - cfg.crop_amount) (img0.shape.2.1 - cfg.crop_amount)
        channels img0
    else img0
  let img2 := if cfg.flip_left_right then .flipLR img1 else img1
  let img3 := if cfg.flip_up_down then .flipUD img2 else img2
  if cfg.do_color_aug ∧ channels = 3 then
    .contrast (1 - cfg.contrast) (1 + cfg.contrast)
      (.hue cfg.hue
        (.saturation (1 - cfg.saturation) (1 + cfg.saturation)
          (.brightness cfg.brightness img3)))
  else img3

/-- A value stored under a key of an example record: the image tensor, or
any other field (labels and the like), opaque to the augmentation. -/
inductive Val where
  | image (i : Img)
  | other (n : ℕ)

abbrev Example := List (String × Val)

/-- Python dict item assignment `d[k] = v`: replace the binding in place,
append when absent. -/
def dictSet {α : Type} : List (String × α) → String → α → List (String × α)
  | [], k, v => [(k, v)]
  | (k', v') :: t, k, v => if k' = k then (k, v) :: t else (k', v') :: dictSet t k v

/-- The closure built by `get_augmentation(cfg)`, with the caller's dict
tracked explicitly: the result pairs the value returned to the caller
with the dict object the caller passed in, as that object stands after
the call.  `img = example["image"]` reads the caller's dict (KeyError
when missing, and a non-tensor value has no shape); then
`example = copy.copy(example)` rebinds the local name to a fresh dict
object, and `example["image"] = img` mutates only that fresh object — the
caller's dict is never written, so the second component is it unchanged. -/
noncomputable def augment (cfg : AugCfg) (ex : Example) :
    Option (Example × Example) :=
  match dlookup ex "image" with
  | some (Val.image img0) =>
    some (dictSet ex "image" (Val.image (augmentImage cfg img0)), ex)
  | _ => none

/-- `get_augmentation(cfg)`: the per-example transformation handed to the
dataset pipeline (the value returned to the pipeline caller). -/
noncomputable def get_augmentation (cfg : AugCfg) : Example → Option Example :=
  fun ex => (augment cfg ex).map Prod.fst

theorem dictSet_lookup_self {α : Type} (l : List (String × α)) (k : String) (v : α) :
    dlookup (dictSet l k v) k = some v := by
  induction l with
  | nil => simp [dictSet, dlookup]
  | cons p t ih =>
    obtain ⟨k0, v0⟩ := p
    by_cases hk : k0 = k
    · subst hk
      simp [dictSet, dlookup]
    · simp [dictSet, dlookup, hk, ih]

theorem dictSet_lookup_ne {α : Type} (l : List (String × α)) (k q : String) (v : α)
    (h : q ≠ k) : dlookup (dictSet l k v) q = dlookup l q := by
  have h' : ¬(k = q) := fun hh => h hh.symm
  induction l with
  | nil => simp [dictSet, dlookup, h']
  | cons p t ih =>
    obtain ⟨k0, v0⟩ := p
    by_cases hk : k0 = k
    · subst hk
      simp [dictSet, dlookup, h']
    · simp only [dictSet, if_neg hk]
      by_cases hq : k0 = q
      · subst hq
        simp [dlookup]
      · simp [dlookup, hq, ih]

/-- C9.
For every augmentation config and every example record holding an image
field, the transformation returned by `get_augmentation` leaves the
caller's record unchanged (the second component, the caller's dict after
the call, is exactly the input) and hands back a shallow copy in which
only the image field is replaced: the new record maps `image` to the
transformed tensor and every other key to the very same value as the
input. -/
theorem augmentation_pure (cfg : AugCfg) (ex : Example) (img0 : Img)
    (himg : dlookup ex "image" = some (Val.image img0)) :
    augment cfg ex =
      some (dictSet ex "image" (Val.image (augmentImage cfg img0)), ex) ∧
    get_augmentation cfg ex =
      some (dictSet ex "image" (Val.image (augmentImage cfg img0))) ∧
    dlookup (dictSet ex "image" (Val.image (augmentImage cfg img0))) "image" =
      some (Val.image (augmentImage cfg img0)) ∧
    (∀ k, k ≠ "image" →
      dlookup (dictSet ex "image" (Val.image (augmentImage cfg img0))) k = dlookup ex k) := by
  have hmain : augment cfg ex =
      some (dictSet ex "image" (Val.image (augmentImage cfg img0)), ex) := by
    unfold augment
    rw [himg]
  refine ⟨hmain, ?_, dictSet_lookup_self ex "image" _, fun k hk => dictSet_lookup_ne ex _ k _ hk⟩
  unfold get_augmentation
  rw [hmain]
  rfl

noncomputable def augWitnessCfg : AugCfg := ⟨1, true, false, true, 1 / 2, 1 / 10, 1 / 10, 1 / 10⟩

def augWitnessEx : Example := [("image", Val.image (Img.src 28 28 3)), ("label", Val.other 7)]

/-- Witness for C9 on a concrete two-field example. -/
theorem augmentation_pure_witness :
    augment augWitnessCfg augWitnessEx =
      some (dictSet augWitnessEx "image"
        (Val.image (augmentImage augWitnessCfg (Img.src 28 28 3))), augWitnessEx) ∧
    dlookup (dictSet augWitnessEx "image"
      (Val.image (augmentImage augWitnessCfg (Img.src 28 28 3)))) "label" =
      dlookup augWitnessEx "label" := by
  obtain ⟨hmain, _, _, hother⟩ := augmentation_pure augWitnessCfg augWitnessEx
    (Img.src 28 28 3) (by rfl)
  exact ⟨hmain, hother "label" (by decide)⟩

/-! ## Dataset pipelines (source lines 295-600)

The external pipeline provider lives in `task_set/datasets.py`, outside
this module; it is modelled from the spec: given the forwarded
parameters it returns a 4-slot bundle `{train, validation,
train-for-eval, test}` of example-stream producers, one per split. -/

inductive Split where
  | train
  | validation
  | trainForEval
  | test
deriving DecidableEq

/-- Modelled from the spec: one example-stream producer returned by the
external dataset pipeline provider, carrying the split it serves and the
parameters this module forwarded. -/
structure Pipeline where
  split : Split
  dataset_name : String
  batch_size : ℤ
  num_train : Option ℤ
  patch_length : Option ℤ
  shuffle_buffer : Option ℤ
  cache : Bool
  num_per_valid : ℤ
  aug : Option (Example → Option Example)

/-- `datasets.Datasets`: the immutable 4-tuple of split pipelines. -/
structure Datasets where
  train : Pipeline
  validation : Pipeline
  trainForEval : Pipeline
  test : Pipeline

/-- Modelled from the spec: `datasets.get_image_datasets` — given
`(dataset_name, batch_size, train-subset-size-or-full, shuffle_buffer,
cache_flag, optional per-example transform, validation-set-size)`,
returns the 4-slot bundle of split pipelines built from them. -/
def get_image_datasets (name : String) (batch_size : ℤ) (num_train : Option ℤ)
    (shuffle_buffer : ℤ) (cache_dataset : Bool)
    (augmentation_fn : Option (Example → Option Example)) (num_per_valid : ℤ) : Datasets :=
  ⟨⟨Split.train, name, batch_size, num_train, none, some shuffle_buffer, cache_dataset,
      num_per_valid, augmentation_fn⟩,
   ⟨Split.validation, name, batch_size, num_train, none, some shuffle_buffer, cache_dataset,
      num_per_valid, augmentation_fn⟩,
   ⟨Split.trainForEval, name, batch_size, num_train, none, some shuffle_buffer, cache_dataset,
      num_per_valid, augmentation_fn⟩,
   ⟨Split.test, name, batch_size, num_train, none, some shuffle_buffer, cache_dataset,
      num_per_valid, augmentation_fn⟩⟩

/-- Modelled from the spec: `datasets.random_slice_text_data` — the
text-slicing pipeline provider, same 4-slot bundle; `shuffle_buffer` is
`none` when the caller leaves the provider default. -/
def random_slice_text_data (dataset_name : String) (batch_size : ℤ) (num_train : Option ℤ)
    (patch_length : ℤ) (cache_dataset : Bool) (num_per_valid : ℤ)
    (shuffle_buffer : Option ℤ) : Datasets :=
  ⟨⟨Split.train, dataset_name, batch_size, num_train, some patch_length, shuffle_buffer,
      cache_dataset, num_per_valid, none⟩,
   ⟨Split.validation, dataset_name, batch_size, num_train, some patch_length, shuffle_buffer,
      cache_dataset, num_per_valid, none⟩,
   ⟨Split.trainForEval, dataset_name, batch_size, num_train, some patch_length, shuffle_buffer,
      cache_dataset, num_per_valid, none⟩,
   ⟨Split.test, dataset_name, batch_size, num_train, some patch_length, shuffle_buffer,
      cache_dataset, num_per_valid, none⟩⟩

/-- `_make_just_train`: when the flag is set, rebuild the bundle with the
train pipeline in all four slots. -/
def make_just_train (d : Datasets) (just_train : Bool) : Datasets :=
  if just_train then ⟨d.train, d.train, d.train, d.train⟩ else d

/-- `sample_bool` at a constant `p` already known to lie in `[0,1]`
cannot raise; this is the value it returns.  The config samplers below
only call it at the literals `0.1` and `0.2`. -/
noncomputable def sample_bool_val (r : Rng) (p : ℝ) : Bool × Rng :=
  let q := uniform r 0 1
  (q.1 < p, q.2)

theorem sample_bool_eq_val (r : Rng) (p : ℝ) (h0 : 0 ≤ p) (h1 : p ≤ 1) :
    sample_bool r p = .ok (sample_bool_val r p) := by
  rw [sample_bool, if_pos ⟨h0, h1⟩]
  rfl

/-- The image-family config dict: `num_train` and `num_classes` are
`none` where a sampler leaves them out or sets `None`. -/
structure ImageConfig where
  bs : ℤ
  num_train : Option ℤ
  num_classes : Option ℤ
  just_train : Bool

noncomputable def sample_mnist_and_fashion_mnist (r : Rng) : ImageConfig × Rng :=
  let b := sample_log_int r 8 512
  let n := sample_linear_int b.2 1000 55000
  let j := sample_bool_val n.2 (1 / 10)
  (⟨b.1, some n.1, some 10, j.1⟩, j.2)

noncomputable def sample_cifar_image (r : Rng) : ImageConfig × Rng :=
  let b := sample_log_int r 8 256
  let n := sample_linear_int b.2 1000 50000
  let j := sample_bool_val n.2 (1 / 5)
  (⟨b.1, some n.1, none, j.1⟩, j.2)

noncomputable def sample_default_image (r : Rng) : ImageConfig × Rng :=
  let b := sample_log_int r 8 256
  let j := sample_bool_val b.2 (1 / 5)
  (⟨b.1, none, none, j.1⟩, j.2)

def n_valid_for_smaller_datasets : List (String × ℤ) :=
  [("coil100_32x32", 800), ("deep_weeds_32x32", 2000)]

/-- `_get_image`: pick the validation-set size (override table, default
5000) and forward to the image pipeline provider with shuffle buffer
10000.  Note the config `just_train` flag is never read here. -/
def get_image (name : String) (config : ImageConfig) (cache : Bool)
    (augmentation_fn : Option (Example → Option Example)) : Datasets :=
  let num_per_valid :=
    match dlookup n_valid_for_smaller_datasets name with
    | some n => n
    | none => 5000
  get_image_datasets name config.bs config.num_train 10000 cache augmentation_fn num_per_valid

/-- `_name_to_image_dataset_map`: ten datasets, each paired with its
config sampler and a materializer partially applied to the dataset name
with `cache=True`. -/
noncomputable def name_to_image_dataset_map :
    List (String × ((Rng → ImageConfig × Rng) ×
      (ImageConfig → Option (Example → Option Example) → Datasets))) :=
  [("mnist", (sample_mnist_and_fashion_mnist, fun c a => get_image "mnist" c true a)),
   ("fashion_mnist",
     (sample_mnist_and_fashion_mnist, fun c a => get_image "fashion_mnist" c true a)),
   ("cifar10", (sample_cifar_image, fun c a => get_image "cifar10" c true a)),
   ("cifar100", (sample_cifar_image, fun c a => get_image "cifar100" c true a)),
   ("food101_32x32", (sample_default_image, fun c a => get_image "food101_32x32" c true a)),
   ("coil100_32x32", (sample_default_image, fun c a => get_image "coil100_32x32" c true a)),
   ("deep_weeds_32x32",
     (sample_default_image, fun c a => get_image "deep_weeds_32x32" c true a)),
   ("sun397_32x32", (sample_default_image, fun c a => get_image "sun397_32x32" c true a)),
   ("imagenet_resized/32x32",
     (sample_default_image, fun c a => get_image "imagenet_resized/32x32" c true a)),
   ("imagenet_resized/16x16",
     (sample_default_image, fun c a => get_image "imagenet_resized/16x16" c true a))]

/-- `get_image_dataset(cfg)`: compile the augmentation config when
present, look the name up, and run the bound materializer. -/
noncomputable def get_image_dataset (cfg : String × ImageConfig × Option AugCfg) :
    Option Datasets :=
  let augmentation_fn := cfg.2.2.map get_augmentation
  (dlookup name_to_image_dataset_map cfg.1).map (fun e => e.2 cfg.2.1 augmentation_fn)

structure TextClassificationConfig where
  bs : ℤ
  num_train : Option ℤ
  max_token : ℤ
  just_train : Bool
  patch_length : ℤ

noncomputable def sample_text_classification (r : Rng) : TextClassificationConfig × Rng :=
  let c := sample_bool_val r (1 / 5)
  let nt : Option ℤ × Rng :=
    if c.1 then
      let m := sample_linear_int c.2 1000 50000
      (some m.1, m.2)
    else (none, c.2)
  let b := sample_log_int nt.2 8 512
  let j := sample_bool_val b.2 (1 / 5)
  let p := sample_log_int j.2 8 128
  (⟨b.1, nt.1, 8185, j.1, p.1⟩, p.2)

/-- `get_text_classification`: forward to the text-slicing provider with
`cache_dataset=True` and validation size 3000; the provider keeps its
own default shuffle buffer.  The config `just_train` flag is never read
here. -/
def get_text_classification (dataset_name : String) (config : TextClassificationConfig) :
    Datasets :=
  random_slice_text_data dataset_name config.bs config.num_train config.patch_length
    true 3000 none

/-- The dataset-name list feeding `_name_to_text_dataset_map`.  The
first element reproduces the source exactly: two adjacent string
literals with no comma between them, which Python concatenates into one
malformed name — leaving nine names instead of ten. -/
def text_dataset_names : List String :=
  ["imdb_reviews/subwords8k" ++
   "imdb_reviews/bytes",
   "tokenized_amazon_reviews/Books_v1_02_bytes",
   "tokenized_amazon_reviews/Camera_v1_00_bytes",
   "tokenized_amazon_reviews/Home_v1_00_bytes",
   "tokenized_amazon_reviews/Video_v1_00_bytes",
   "tokenized_amazon_reviews/Books_v1_02_subwords8k",
   "tokenized_amazon_reviews/Camera_v1_00_subwords8k",
   "tokenized_amazon_reviews/Home_v1_00_subwords8k",
   "tokenized_amazon_reviews/Video_v1_00_subwords8k"]

/-- `_name_to_text_dataset_map`: every entry holds the same pair — the
text-classification sampler and a materializer hard-wired (an
acknowledged typo in the source: `_dataset_name` is not passed) to
`"imdb_reviews/subwords8k"`. -/
noncomputable def name_to_text_dataset_map :
    List (String × ((Rng → TextClassificationConfig × Rng) ×
      (TextClassificationConfig → Datasets))) :=
  text_dataset_names.map (fun n =>
    (n, (sample_text_classification, fun c => get_text_classification "imdb_reviews/subwords8k" c)))

noncomputable def get_text_dataset (cfg : String × TextClassificationConfig) : Option Datasets :=
  (dlookup name_to_text_dataset_map cfg.1).map (fun e => e.2 cfg.2)

/-- Shared shape of the byte-level and word-level sequence configs. -/
structure ByteConfig where
  patch_length : ℤ
  batch_size : ℤ
  just_train : Bool
  num_train : Option ℤ

noncomputable def sample_byte_config (r : Rng) : ByteConfig × Rng :=
  let c := sample_bool_val r (1 / 5)
  let nt : Option ℤ × Rng :=
    if c.1 then
      let m := sample_linear_int c.2 1000 50000
      (some m.1, m.2)
    else (none, c.2)
  let p := sample_log_int nt.2 10 160
  let b := sample_log_int p.2 8 512
  let j := sample_bool_val b.2 (1 / 5)
  (⟨p.1, b.1, j.1, nt.1⟩, j.2)

/-- `get_byte_dataset`: forward to the slicing provider (validation size
3000, shuffle buffer 10000, cached), then apply the just-train
collapse. -/
def get_byte_dataset (config : ByteConfig) (name : String) : Datasets :=
  make_just_train
    (random_slice_text_data name config.batch_size config.num_train config.patch_length
      true 3000 (some 10000))
    config.just_train

def char_sequence_dataset_names : List String :=
  ["lm1b/bytes",
   "imdb_reviews/bytes",
   "tokenized_wikipedia/20190301.zh_bytes",
   "tokenized_wikipedia/20190301.ru_bytes",
   "tokenized_wikipedia/20190301.ja_bytes",
   "tokenized_wikipedia/20190301.hsb_bytes",
   "tokenized_wikipedia/20190301.en_bytes",
   "tokenized_amazon_reviews/Books_v1_02_bytes",
   "tokenized_amazon_reviews/Camera_v1_00_bytes",
   "tokenized_amazon_reviews/Home_v1_00_bytes",
   "tokenized_amazon_reviews/Video_v1_00_bytes"]

noncomputable def name_to_char_sequence_dataset_map :
    List (String × ((Rng → ByteConfig × Rng) × (ByteConfig → Datasets))) :=
  char_sequence_dataset_names.map (fun n =>
    (n, (sample_byte_config, fun c => get_byte_dataset c n)))

noncomputable def get_char_lm_dataset (cfg : String × ByteConfig) : Option Datasets :=
  (dlookup name_to_char_sequence_dataset_map cfg.1).map (fun e => e.2 cfg.2)

/-- `_make_get_word_dataset(name)`: the word-level materializer —
validation size 10000, shuffle buffer 10000, cached, then the just-train
collapse. -/
def make_get_word_dataset (dataset_name : String) : ByteConfig → Datasets :=
  fun config =>
    make_just_train
      (random_slice_text_data dataset_name config.batch_size config.num_train
        config.patch_length true 10000 (some 10000))
      config.just_train

noncomputable def sample_word_dataset_config (r : Rng) : ByteConfig × Rng :=
  let c := sample_bool_val r (1 / 5)
  let nt : Option ℤ × Rng :=
    if c.1 then
      let m := sample_linear_int c.2 1000 50000
      (some m.1, m.2)
    else (none, c.2)
  let p := sample_log_int nt.2 10 256
  let b := sample_log_int p.2 8 512
  let j := sample_bool_val b.2 (1 / 5)
  (⟨p.1, b.1, j.1, nt.1⟩, j.2)

def word_sequence_dataset_names : List String :=
  ["lm1b/subwords8k",
   "imdb_reviews/subwords8k",
   "tokenized_wikipedia/20190301.zh_subwords8k",
   "tokenized_wikipedia/20190301.ru_subwords8k",
   "tokenized_wikipedia/20190301.ja_subwords8k",
   "tokenized_wikipedia/20190301.hsb_subwords8k",
   "tokenized_wikipedia/20190301.en_subwords8k",
   "tokenized_amazon_reviews/Books_v1_02_subwords8k",
   "tokenized_amazon_reviews/Camera_v1_00_subwords8k",
   "tokenized_amazon_reviews/Home_v1_00_subwords8k",
   "tokenized_amazon_reviews/Video_v1_00_subwords8k"]

noncomputable def name_to_word_sequence_dataset_map :
    List (String × ((Rng → ByteConfig × Rng) × (ByteConfig → Datasets))) :=
  word_sequence_dataset_names.map (fun n =>
    (n, (sample_word_dataset_config, make_get_word_dataset n)))

noncomputable def get_word_lm_dataset (cfg : String × ByteConfig) : Option Datasets :=
  (dlookup name_to_word_sequence_dataset_map cfg.1).map (fun e => e.2 cfg.2)

set_option maxHeartbeats 1000000 in
/-- Every image-registry materializer is a `get_image` closure: its
bundle keeps the provider's four distinct split pipelines and it never
reads the `just_train` flag. -/
theorem image_entry_shape (name : String)
    (e : (Rng → ImageConfig × Rng) ×
      (ImageConfig → Option (Example → Option Example) → Datasets))
    (h : dlookup name_to_image_dataset_map name = some e) :
    ∀ (c : ImageConfig) (a : Option (Example → Option Example)),
      (e.2 c a).validation.split = Split.validation ∧
      (e.2 c a).train.split = Split.train ∧
      ∀ b : Bool, e.2 { c with just_train := b } a = e.2 c a := by
  simp only [name_to_image_dataset_map, dlookup] at h
  split_ifs at h <;> cases h <;> exact fun c a => ⟨rfl, rfl, fun b => rfl⟩

set_option maxHeartbeats 1000000 in
/-- Every text-classification-registry materializer is the fixed
`get_text_classification "imdb_reviews/subwords8k"` closure. -/
theorem text_entry_shape (name : String)
    (e : (Rng → TextClassificationConfig × Rng) × (TextClassificationConfig → Datasets))
    (h : dlookup name_to_text_dataset_map name = some e) :
    e.2 = fun c => get_text_classification "imdb_reviews/subwords8k" c := by
  simp only [name_to_text_dataset_map, text_dataset_names, List.map, dlookup] at h
  split_ifs at h <;> cases h <;> rfl

set_option maxHeartbeats 1000000 in
/-- Every byte-registry materializer is `get_byte_dataset` bound to its
dataset name. -/
theorem char_entry_shape (name : String)
    (e : (Rng → ByteConfig × Rng) × (ByteConfig → Datasets))
    (h : dlookup name_to_char_sequence_dataset_map name = some e) :
    ∃ n : String, e.2 = fun c => get_byte_dataset c n := by
  simp only [name_to_char_sequence_dataset_map, char_sequence_dataset_names,
    List.map, dlookup] at h
  split_ifs at h <;> cases h <;> exact ⟨_, rfl⟩

set_option maxHeartbeats 1000000 in
/-- Every word-registry materializer is `_make_get_word_dataset` bound
to its dataset name. -/
theorem word_entry_shape (name : String)
    (e : (Rng → ByteConfig × Rng) × (ByteConfig → Datasets))
    (h : dlookup name_to_word_sequence_dataset_map name = some e) :
    ∃ n : String, e.2 = make_get_word_dataset n := by
  simp only [name_to_word_sequence_dataset_map, word_sequence_dataset_names,
    List.map, dlookup] at h
  split_ifs at h <;> cases h <;> exact ⟨_, rfl⟩

theorem get_byte_dataset_collapse (c : ByteConfig) (n : String) (h : c.just_train = true) :
    (get_byte_dataset c n).validation = (get_byte_dataset c n).train ∧
    (get_byte_dataset c n).trainForEval = (get_byte_dataset c n).train ∧
    (get_byte_dataset c n).test = (get_byte_dataset c n).train := by
  refine ⟨?_, ?_, ?_⟩ <;> simp [get_byte_dataset, make_just_train, h]

theorem make_get_word_dataset_collapse (c : ByteConfig) (n : String)
    (h : c.just_train = true) :
    (make_get_word_dataset n c).validation = (make_get_word_dataset n c).train ∧
    (make_get_word_dataset n c).trainForEval = (make_get_word_dataset n c).train ∧
    (make_get_word_dataset n c).test = (make_get_word_dataset n c).train := by
  refine ⟨?_, ?_, ?_⟩ <;> simp [make_get_word_dataset, make_just_train, h]

/-- C1 counterexample config: an `mnist` config with `just_train` set. -/
def c1ImageCfg : ImageConfig := ⟨8, some 1000, some 10, true⟩

/-- C1 counterexample: materializing `mnist` with `just_train = True`
still yields a bundle whose validation slot is the provider's validation
pipeline, not the train pipeline — the image materializer never applies
the just-train collapse. -/
theorem image_just_train_not_collapsed :
    (get_image_dataset ("mnist", c1ImageCfg, none)).map (fun d => d.validation.split) ≠
      (get_image_dataset ("mnist", c1ImageCfg, none)).map (fun d => d.train.split) := by
  have h1 : (get_image_dataset ("mnist", c1ImageCfg, none)).map (fun d => d.validation.split) =
      some Split.validation := rfl
  have h2 : (get_image_dataset ("mnist", c1ImageCfg, none)).map (fun d => d.train.split) =
      some Split.train := rfl
  rw [h1, h2]
  decide

/-- C1 (amended).
The just-train collapse reaches only the byte-level and word-level
sequence families: their `get_*` materializers return bundles with all
four slots equal to the train pipeline whenever the config flag is true.
The image and text-classification materializers ignore the flag
entirely: their output is independent of it and keeps the provider's
distinct validation and train pipelines. -/
theorem just_train_collapse :
    (∀ (name : String) (c : ByteConfig) (d : Datasets),
      get_char_lm_dataset (name, c) = some d → c.just_train = true →
      d.validation = d.train ∧ d.trainForEval = d.train ∧ d.test = d.train) ∧
    (∀ (name : String) (c : ByteConfig) (d : Datasets),
      get_word_lm_dataset (name, c) = some d → c.just_train = true →
      d.validation = d.train ∧ d.trainForEval = d.train ∧ d.test = d.train) ∧
    (∀ (name : String) (c : ImageConfig) (a : Option AugCfg) (d : Datasets),
      get_image_dataset (name, c, a) = some d →
      (d.validation.split = Split.validation ∧ d.train.split = Split.train ∧
        ∀ b : Bool, get_image_dataset (name, { c with just_train := b }, a) =
          get_image_dataset (name, c, a))) ∧
    (∀ (name : String) (c : TextClassificationConfig) (d : Datasets),
      get_text_dataset (name, c) = some d →
      (d.validation.split = Split.validation ∧ d.train.split = Split.train ∧
        ∀ b : Bool, get_text_dataset (name, { c with just_train := b }) =
          get_text_dataset (name, c))) := by
  refine ⟨?_, ?_, ?_, ?_⟩
  · intro name c d hd hc
    rw [get_char_lm_dataset, Option.map_eq_some'] at hd
    obtain ⟨e, he, hde⟩ := hd
    obtain ⟨n, hn⟩ := char_entry_shape name e he
    rw [← hde, hn]
    exact get_byte_dataset_collapse c n hc
  · intro name c d hd hc
    rw [get_word_lm_dataset, Option.map_eq_some'] at hd
    obtain ⟨e, he, hde⟩ := hd
    obtain ⟨n, hn⟩ := word_entry_shape name e he
    rw [← hde, hn]
    exact make_get_word_dataset_collapse c n hc
  · intro name c a d hd
    rw [get_image_dataset, Option.map_eq_some'] at hd
    obtain ⟨e, he, hde⟩ := hd
    obtain ⟨hv, ht, hb⟩ := image_entry_shape name e he c (a.map get_augmentation)
    refine ⟨by rw [← hde]; exact hv, by rw [← hde]; exact ht, fun b => ?_⟩
    rw [get_image_dataset, get_image_dataset, he]
    exact congrArg some (hb b)
  · intro name c d hd
    rw [get_text_dataset, Option.map_eq_some'] at hd
    obtain ⟨e, he, hde⟩ := hd
    have hshape := text_entry_shape name e he
    refine ⟨?_, ?_, fun b => ?_⟩
    · rw [← hde, hshape]
      rfl
    · rw [← hde, hshape]
      rfl
    · rw [get_text_dataset, get_text_dataset, he]
      simp only [Option.map_some']
      rw [hshape]
      rfl

def byteWitnessCfg : ByteConfig := ⟨10, 8, true, none⟩

/-- Witness for C1: a byte-family and a word-family materialization with
`just_train = True` collapse all slots to train; the `mnist` and merged
text materializations keep distinct validation and train pipelines and
ignore the flag. -/
theorem just_train_collapse_witness :
    (get_byte_dataset byteWitnessCfg "lm1b/bytes").validation =
      (get_byte_dataset byteWitnessCfg "lm1b/bytes").train ∧
    (make_get_word_dataset "lm1b/subwords8k" byteWitnessCfg).validation =
      (make_get_word_dataset "lm1b/subwords8k" byteWitnessCfg).train ∧
    (get_image "mnist" c1ImageCfg true none).validation.split = Split.validation ∧
    (get_image "mnist" c1ImageCfg true none).train.split = Split.train ∧
    get_image_dataset ("mnist", { c1ImageCfg with just_train := false }, none) =
      get_image_dataset ("mnist", c1ImageCfg, none) := by
  obtain ⟨hbyte, hword, himage, _⟩ := just_train_collapse
  refine ⟨?_, ?_, ?_, ?_, ?_⟩
  · exact (hbyte "lm1b/bytes" byteWitnessCfg _ rfl rfl).1
  · exact (hword "lm1b/subwords8k" byteWitnessCfg _ rfl rfl).1
  · exact (himage "mnist" c1ImageCfg none _ rfl).1
  · exact (himage "mnist" c1ImageCfg none _ rfl).2.1
  · exact (himage "mnist" c1ImageCfg none _ rfl).2.2 false

/-- C2.
The text-classification registry has exactly nine keys: the first is the
concatenation of the two adjacent source literals
`"imdb_reviews/subwords8k"` and `"imdb_reviews/bytes"` (neither of which
is a key on its own), followed by the eight amazon-review names; and
for every key the bound materializer forwards the fixed dataset name
`"imdb_reviews/subwords8k"` to the pipeline provider in all four slots,
regardless of the selected key. -/
theorem text_registry_malformed :
    name_to_text_dataset_map.map Prod.fst =
      ["imdb_reviews/subwords8k" ++ "imdb_reviews/bytes",
       "tokenized_amazon_reviews/Books_v1_02_bytes",
       "tokenized_amazon_reviews/Camera_v1_00_bytes",
       "tokenized_amazon_reviews/Home_v1_00_bytes",
       "tokenized_amazon_reviews/Video_v1_00_bytes",
       "tokenized_amazon_reviews/Books_v1_02_subwords8k",
       "tokenized_amazon_reviews/Camera_v1_00_subwords8k",
       "tokenized_amazon_reviews/Home_v1_00_subwords8k",
       "tokenized_amazon_reviews/Video_v1_00_subwords8k"] ∧
    name_to_text_dataset_map.length = 9 ∧
    "imdb_reviews/subwords8kimdb_reviews/bytes" ∈ name_to_text_dataset_map.map Prod.fst ∧
    "imdb_reviews/subwords8k" ∉ name_to_text_dataset_map.map Prod.fst ∧
    "imdb_reviews/bytes" ∉ name_to_text_dataset_map.map Prod.fst ∧
    (∀ (k : String) (e) (c : TextClassificationConfig),
      dlookup name_to_text_dataset_map k = some e →
      (e.2 c).train.dataset_name = "imdb_reviews/subwords8k" ∧
      (e.2 c).validation.dataset_name = "imdb_reviews/subwords8k" ∧
      (e.2 c).trainForEval.dataset_name = "imdb_reviews/subwords8k" ∧
      (e.2 c).test.dataset_name = "imdb_reviews/subwords8k") := by
  refine ⟨rfl, rfl, by decide, by decide, by decide, ?_⟩
  intro k e c he
  rw [text_entry_shape k e he]
  exact ⟨rfl, rfl, rfl, rfl⟩

def textWitnessCfg : TextClassificationConfig := ⟨8, none, 8185, false, 8⟩

/-- Witness for C2 at the malformed merged key. -/
theorem text_registry_malformed_witness :
    name_to_text_dataset_map.length = 9 ∧
    "imdb_reviews/subwords8kimdb_reviews/bytes" ∈ name_to_text_dataset_map.map Prod.fst ∧
    (get_text_classification "imdb_reviews/subwords8k" textWitnessCfg).train.dataset_name =
      "imdb_reviews/subwords8k" := by
  obtain ⟨_, hlen, hmem, _, _, hall⟩ := text_registry_malformed
  exact ⟨hlen, hmem,
    (hall "imdb_reviews/subwords8kimdb_reviews/bytes"
      (sample_text_classification, fun c => get_text_classification "imdb_reviews/subwords8k" c)
      textWitnessCfg rfl).1⟩

/-! ## Config serialization (source lines 603-621)

`pretty_json_dumps` renders each top-level key as `"key":<json.dumps(value)>`,
keys sorted, joined by `,\n` inside braces.  The `json` standard library
is modelled below: a JSON value type (dict values are "json serializable
objects"; floating-point numbers are outside the model), Python's
`json.dumps` with its default settings (`ensure_ascii=True`, separators
`", "` and `": "`), and an RFC-style JSON reader standing in for "a
standard JSON parser".  The value/list/object types are a mutual
inductive so that structural recursion and induction stay elementary. -/

mutual
inductive JsonValue where
  | null
  | bool (b : Bool)
  | int (n : ℤ)
  | str (s : String)
  | arr (l : JsonList)
  | obj (m : JsonObj)
inductive JsonList where
  | nil
  | cons (v : JsonValue) (t : JsonList)
inductive JsonObj where
  | nil
  | cons (k : String) (v : JsonValue) (t : JsonObj)
end

def objOfList : List (String × JsonValue) → JsonObj
  | [] => .nil
  | (k, v) :: t => .cons k v (objOfList t)

/-- Lowercase hex digit, as Python's `%04x`-style `\uXXXX` escapes use. -/
def hexDig (n : ℕ) : Char := if n < 10 then Char.ofNat (48 + n) else Char.ofNat (87 + n)

def hex4 (n : ℕ) : List Char :=
  [hexDig (n / 4096 % 16), hexDig (n / 256 % 16), hexDig (n / 16 % 16), hexDig (n % 16)]

/-- Python `json.dumps` character escaping with `ensure_ascii=True`:
quote and backslash escaped, the five short control escapes, `\u00XX`
for the other control characters, printable ASCII literal, and `\uXXXX`
(a surrogate pair beyond the BMP) for everything else. -/
def escapeChar (c : Char) : List Char :=
  if c = Char.ofNat 34 then [Char.ofNat 92, Char.ofNat 34]
  else if c = Char.ofNat 92 then [Char.ofNat 92, Char.ofNat 92]
  else if c = Char.ofNat 8 then [Char.ofNat 92, 'b']
  else if c = Char.ofNat 9 then [Char.ofNat 92, 't']
  else if c = Char.ofNat 10 then [Char.ofNat 92, 'n']
  else if c = Char.ofNat 12 then [Char.ofNat 92, 'f']
  else if c = Char.ofNat 13 then [Char.ofNat 92, 'r']
  else if c.toNat < 32 then Char.ofNat 92 :: 'u' :: hex4 c.toNat
  else if c.toNat < 127 then [c]
  else if c.toNat < 65536 then Char.ofNat 92 :: 'u' :: hex4 c.toNat
  else
    (Char.ofNat 92 :: 'u' :: hex4 (55296 + (c.toNat - 65536) / 1024)) ++
      (Char.ofNat 92 :: 'u' :: hex4 (56320 + (c.toNat - 65536) % 1024))

def escapeList (l : List Char) : List Char := (l.map escapeChar).flatten

def escapeString (s : String) : List Char := escapeList s.data

def digitChar (d : ℕ) : Char := Char.ofNat (48 + d)

def natDigitsAux : ℕ → ℕ → List Char → List Char
  | 0, _, acc => acc
  | fuel + 1, n, acc =>
    if n < 10 then digitChar n :: acc
    else natDigitsAux fuel (n / 10) (digitChar (n % 10) :: acc)

/-- Decimal digits of a natural number, most significant first. -/
def natRepr (n : ℕ) : List Char := natDigitsAux (n + 1) n []

/-- Python `repr` of an int, which is what `json.dumps` emits. -/
def intRepr : ℤ → List Char
  | .ofNat n => natRepr n
  | .negSucc m => '-' :: natRepr (m + 1)

-- `json.dumps` of a value, default settings: item separator `", "`,
-- key separator `": "`, keys escaped like any string.
mutual
def dumpsV : JsonValue → List Char
  | .int n => intRepr n
  | .bool false => ['f', 'a', 'l', 's', 'e']
  | .bool true => ['t', 'r', 'u', 'e']
  | .null => ['n', 'u', 'l', 'l']
  | .str s => Char.ofNat 34 :: escapeString s ++ [Char.ofNat 34]
  | .arr .nil => ['[', ']']
  | .arr (.cons v t) => '[' :: dumpsV v ++ dumpsElems t ++ [']']
  | .obj .nil => [Char.ofNat 123, Char.ofNat 125]
  | .obj (.cons k v t) =>
    Char.ofNat 123 ::
      (Char.ofNat 34 :: escapeString k ++ (Char.ofNat 34 :: ':' :: ' ' :: dumpsV v)) ++
      dumpsMembers t ++ [Char.ofNat 125]
def dumpsElems : JsonList → List Char
  | .nil => []
  | .cons v t => ',' :: ' ' :: dumpsV v ++ dumpsElems t
def dumpsMembers : JsonObj → List Char
  | .nil => []
  | .cons k v t =>
    ',' :: ' ' ::
      (Char.ofNat 34 :: escapeString k ++ (Char.ofNat 34 :: ':' :: ' ' :: dumpsV v)) ++
      dumpsMembers t
end

/-- One `"key": value` member as `json.dumps` renders it. -/
def dumpsMember1 (k : String) (v : JsonValue) : List Char :=
  Char.ofNat 34 :: escapeString k ++ (Char.ofNat 34 :: ':' :: ' ' :: dumpsV v)

-- Parser fuel accounting: one unit per parseValue/parseElems/parseMembers layer.
mutual
def sizeV : JsonValue → ℕ
  | .null => 1
  | .bool _ => 1
  | .int _ => 1
  | .str _ => 1
  | .arr l => 1 + sizeL l
  | .obj m => 1 + sizeM m
def sizeL : JsonList → ℕ
  | .nil => 0
  | .cons v t => 1 + sizeV v + sizeL t
def sizeM : JsonObj → ℕ
  | .nil => 0
  | .cons _ v t => 1 + sizeV v + sizeM t
end

def isWsChar (c : Char) : Bool :=
  c = ' ' || c = Char.ofNat 10 || c = Char.ofNat 13 || c = Char.ofNat 9

def skipWs : List Char → List Char
  | [] => []
  | c :: t => if isWsChar c then skipWs t else c :: t

def hexVal (c : Char) : Option ℕ :=
  if 48 ≤ c.toNat ∧ c.toNat ≤ 57 then some (c.toNat - 48)
  else if 97 ≤ c.toNat ∧ c.toNat ≤ 102 then some (c.toNat - 87)
  else if 65 ≤ c.toNat ∧ c.toNat ≤ 70 then some (c.toNat - 55)
  else none

def isDigitC (c : Char) : Bool := 48 ≤ c.toNat && c.toNat ≤ 57

def digitVal (c : Char) : ℕ := c.toNat - 48

/-- Consume a maximal run of decimal digits, accumulating their value. -/
def parseNatAux : List Char → ℕ → ℕ × List Char
  | [], acc => (acc, [])
  | c :: t, acc => if isDigitC c then parseNatAux t (acc * 10 + digitVal c) else (acc, c :: t)

def parseNumber : List Char → Option (ℤ × List Char)
  | [] => none
  | c :: t =>
    if c = '-' then
      match t with
      | [] => none
      | d :: _ =>
        if isDigitC d then
          let p := parseNatAux t 0
          some (-(p.1 : ℤ), p.2)
        else none
    else if isDigitC c then
      let p := parseNatAux (c :: t) 0
      some ((p.1 : ℤ), p.2)
    else none

/-- Decode one escape sequence (the text after a backslash): the
standard single-character escapes and `\uXXXX`, recombining a surrogate
pair; anything else is rejected. -/
def parseEscape : List Char → Option (Char × List Char)
  | [] => none
  | e :: t2 =>
    if e = Char.ofNat 34 then some (Char.ofNat 34, t2)
    else if e = Char.ofNat 92 then some (Char.ofNat 92, t2)
    else if e = Char.ofNat 47 then some (Char.ofNat 47, t2)
    else if e = 'b' then some (Char.ofNat 8, t2)
    else if e = 'f' then some (Char.ofNat 12, t2)
    else if e = 'n' then some (Char.ofNat 10, t2)
    else if e = 'r' then some (Char.ofNat 13, t2)
    else if e = 't' then some (Char.ofNat 9, t2)
    else if e = 'u' then
      match t2 with
      | h1 :: h2 :: h3 :: h4 :: t3 =>
        match hexVal h1, hexVal h2, hexVal h3, hexVal h4 with
        | some x1, some x2, some x3, some x4 =>
          let v := ((x1 * 16 + x2) * 16 + x3) * 16 + x4
          if 55296 ≤ v ∧ v ≤ 56319 then
            match t3 with
            | b1 :: b2 :: h5 :: h6 :: h7 :: h8 :: t4 =>
              if b1 = Char.ofNat 92 ∧ b2 = 'u' then
                match hexVal h5, hexVal h6, hexVal h7, hexVal h8 with
                | some y1, some y2, some y3, some y4 =>
                  let w := ((y1 * 16 + y2) * 16 + y3) * 16 + y4
                  if 56320 ≤ w ∧ w ≤ 57343 then
                    some (Char.ofNat (65536 + (v - 55296) * 1024 + (w - 56320)), t4)
                  else none
                | _, _, _, _ => none
              else none
            | _ => none
          else if 56320 ≤ v ∧ v ≤ 57343 then none
          else some (Char.ofNat v, t3)
        | _, _, _, _ => none
      | _ => none
    else none

/-- JSON string body reader (after the opening quote): literal characters
up to the closing quote, escapes via `parseEscape`; raw control
characters and malformed escapes are rejected, as a strict reader does.
Fuel-driven; callers pass the input length, which always suffices since
every decoded character consumes input. -/
def parseStrAux : ℕ → List Char → Option (List Char × List Char)
  | 0, _ => none
  | _ + 1, [] => none
  | fuel + 1, c :: t =>
    if c = Char.ofNat 34 then some ([], t)
    else if c = Char.ofNat 92 then
      match parseEscape t with
      | some (ch, t2) => (parseStrAux fuel t2).map (fun p => (ch :: p.1, p.2))
      | none => none
    else if c.toNat < 32 then none
    else (parseStrAux fuel t).map (fun p => (c :: p.1, p.2))

mutual
def parseValue : ℕ → List Char → Option (JsonValue × List Char)
  | 0, _ => none
  | fuel + 1, cs =>
    match skipWs cs with
    | [] => none
    | c :: t =>
      if c = Char.ofNat 123 then
        match skipWs t with
        | [] => none
        | d :: t2 =>
          if d = Char.ofNat 125 then some (.obj .nil, t2)
          else
            match parseMembers fuel (d :: t2) with
            | some (m, rest) => some (.obj m, rest)
            | none => none
      else if c = '[' then
        match skipWs t with
        | [] => none
        | d :: t2 =>
          if d = ']' then some (.arr .nil, t2)
          else
            match parseElems fuel (d :: t2) with
            | some (l, rest) => some (.arr l, rest)
            | none => none
      else if c = Char.ofNat 34 then
        match parseStrAux (t.length + 1) t with
        | some (s, rest) => some (.str (String.mk s), rest)
        | none => none
      else if c = 't' then
        match t with
        | 'r' :: 'u' :: 'e' :: rest => some (.bool true, rest)
        | _ => none
      else if c = 'f' then
        match t with
        | 'a' :: 'l' :: 's' :: 'e' :: rest => some (.bool false, rest)
        | _ => none
      else if c = 'n' then
        match t with
        | 'u' :: 'l' :: 'l' :: rest => some (.null, rest)
        | _ => none
      else
        match parseNumber (c :: t) with
        | some (n, rest) => some (.int n, rest)
        | none => none

def parseElems : ℕ → List Char → Option (JsonList × List Char)
  | 0, _ => none
  | fuel + 1, cs =>
    match parseValue fuel cs with
    | some (v, rest) =>
      match skipWs rest with
      | [] => none
      | c :: t =>
        if c = ',' then
          match parseElems fuel t with
          | some (l, rest2) => some (.cons v l, rest2)
          | none => none
        else if c = ']' then some (.cons v .nil, t)
        else none
    | none => none

def parseMembers : ℕ → List Char → Option (JsonObj × List Char)
  | 0, _ => none
  | fuel + 1, cs =>
    match cs with
    | [] => none
    | c :: t =>
      if c = Char.ofNat 34 then
        match parseStrAux (t.length + 1) t with
        | some (k, rest) =>
          match skipWs rest with
          | [] => none
          | d :: t2 =>
            if d = ':' then
              match parseValue fuel t2 with
              | some (v, rest2) =>
                match skipWs rest2 with
                | [] => none
                | e2 :: t3 =>
                  if e2 = ',' then
                    match parseMembers fuel (skipWs t3) with
                    | some (m, rest3) => some (.cons (String.mk k) v m, rest3)
                    | none => none
                  else if e2 = Char.ofNat 125 then some (.cons (String.mk k) v .nil, t3)
                  else none
              | none => none
            else none
        | none => none
      else none
end

/-- The standard JSON reader: one value, optionally surrounded by
whitespace, spanning the whole input. -/
def jsonParse (s : String) : Option JsonValue :=
  match parseValue (s.length + 1) s.data with
  | some (v, rest) => if skipWs rest = [] then some v else none
  | none => none

/-- Python string comparison: lexicographic on code points. -/
def charListLe : List Char → List Char → Bool
  | [], _ => true
  | _ :: _, [] => false
  | c :: t, d :: u =>
    if c.toNat < d.toNat then true
    else if d.toNat < c.toNat then false
    else charListLe t u

def keyLe (a b : String) : Bool := charListLe a.data b.data

/-- `sorted(dd.items(), key=lambda x: x[0])`: keys are unique in a dict,
so a stable sort is any sort by key. -/
def sortConfigItems (l : List (String × JsonValue)) : List (String × JsonValue) :=
  List.insertionSort (fun a b => keyLe a.1 b.1 = true) l

/-- One output line `"%s":%s % (key, json.dumps(value))`: the key is
interpolated RAW — no JSON escaping — and the separator is a bare `:`. -/
def prettyLine (kv : String × JsonValue) : List Char :=
  Char.ofNat 34 :: kv.1.data ++ (Char.ofNat 34 :: ':' :: dumpsV kv.2)

def prettyLines : List (String × JsonValue) → List Char
  | [] => []
  | [kv] => prettyLine kv
  | kv :: t => prettyLine kv ++ (',' :: Char.ofNat 10 :: prettyLines t)

/-- `pretty_json_dumps(dd)`: `"{\n"`, the sorted lines joined by `",\n"`,
then `"\n}"`.  (The ValueError branch for non-dict input is outside this
typed model; the input type is the mapping itself.) -/
def pretty_json_dumps (dd : List (String × JsonValue)) : String :=
  String.mk (Char.ofNat 123 :: Char.ofNat 10 ::
    (prettyLines (sortConfigItems dd) ++ (Char.ofNat 10 :: [Char.ofNat 125])))

theorem toNat_charOfNat (m : ℕ) (h : Nat.isValidChar m) : (Char.ofNat m).toNat = m := by
  rw [Char.ofNat, dif_pos h]
  rfl

theorem toNat_charOfNat_small (m : ℕ) (h : m < 55296) : (Char.ofNat m).toNat = m :=
  toNat_charOfNat m (Or.inl h)

theorem digitChar_toNat (d : ℕ) (h : d < 10) : (digitChar d).toNat = 48 + d :=
  toNat_charOfNat_small (48 + d) (by omega)

theorem isDigitC_digitChar (d : ℕ) (h : d < 10) : isDigitC (digitChar d) = true := by
  simp only [isDigitC, digitChar_toNat d h, Bool.and_eq_true, decide_eq_true_eq]
  omega

theorem digitVal_digitChar (d : ℕ) (h : d < 10) : digitVal (digitChar d) = d := by
  simp only [digitVal, digitChar_toNat d h]
  omega

/-- Unfolding step of the decimal printer at sufficient fuel. -/
theorem natDigitsAux_spec (n : ℕ) : ∀ fuel acc, n < fuel →
    natDigitsAux fuel n acc = natRepr n ++ acc := by
  induction n using Nat.strong_induction_on with
  | _ n ih =>
    intro fuel acc hfuel
    match fuel with
    | f + 1 =>
      by_cases h10 : n < 10
      · simp [natDigitsAux, natRepr, h10]
      · have hdiv : n / 10 < n := Nat.div_lt_self (by omega) (by omega)
        rw [natDigitsAux, if_neg h10, ih (n / 10) hdiv f _ (by omega)]
        conv_rhs =>
          rw [natRepr, natDigitsAux, if_neg h10,
            ih (n / 10) hdiv n (digitChar (n % 10) :: []) (by omega)]
        simp

theorem natRepr_small (n : ℕ) (h : n < 10) : natRepr n = [digitChar n] := by
  simp [natRepr, natDigitsAux, h]

theorem natRepr_step (n : ℕ) (h : 10 ≤ n) :
    natRepr n = natRepr (n / 10) ++ [digitChar (n % 10)] := by
  conv_lhs => rw [natRepr, natDigitsAux, if_neg (by omega : ¬n < 10)]
  exact natDigitsAux_spec (n / 10) n _ (by omega)

theorem natRepr_digits (n : ℕ) : ∀ c ∈ natRepr n, isDigitC c = true := by
  induction n using Nat.strong_induction_on with
  | _ n ih =>
    by_cases h10 : n < 10
    · rw [natRepr_small n h10]
      intro c hc
      rw [List.mem_singleton] at hc
      subst hc
      exact isDigitC_digitChar n h10
    · rw [natRepr_step n (by omega)]
      intro c hc
      rw [List.mem_append] at hc
      rcases hc with hc | hc
      · exact ih (n / 10) (Nat.div_lt_self (by omega) (by omega)) c hc
      · rw [List.mem_singleton] at hc
        subst hc
        exact isDigitC_digitChar (n % 10) (Nat.mod_lt n (by omega))

theorem natRepr_ne_nil (n : ℕ) : natRepr n ≠ [] := by
  by_cases h10 : n < 10
  · rw [natRepr_small n h10]
    simp
  · rw [natRepr_step n (by omega)]
    simp

/-- Head of a list that must not be a decimal digit for the maximal-run
number reader to stop exactly there. -/
def noLeadingDigit : List Char → Prop
  | [] => True
  | c :: _ => isDigitC c = false

theorem parseNatAux_run (ds : List Char) : ∀ (rest : List Char) (acc : ℕ),
    (∀ c ∈ ds, isDigitC c = true) → noLeadingDigit rest →
    parseNatAux (ds ++ rest) acc =
      (ds.foldl (fun a c => a * 10 + digitVal c) acc, rest) := by
  induction ds with
  | nil =>
    intro rest acc _ hrest
    match rest with
    | [] => rfl
    | c :: t =>
      simp only [List.nil_append, List.foldl_nil, parseNatAux]
      rw [if_neg]
      rw [show isDigitC c = false from hrest]
      simp
  | cons d ds ih =>
    intro rest acc hds hrest
    have hd : isDigitC d = true := hds d (List.mem_cons_self d ds)
    simp only [List.cons_append, parseNatAux, if_pos hd, List.foldl_cons]
    exact ih rest (acc * 10 + digitVal d) (fun c hc => hds c (List.mem_cons_of_mem d hc)) hrest

theorem natRepr_foldl (n : ℕ) :
    (natRepr n).foldl (fun a c => a * 10 + digitVal c) 0 = n := by
  induction n using Nat.strong_induction_on with
  | _ n ih =>
    by_cases h10 : n < 10
    · rw [natRepr_small n h10]
      simp [digitVal_digitChar n h10]
    · rw [natRepr_step n (by omega), List.foldl_append,
        ih (n / 10) (Nat.div_lt_self (by omega) (by omega))]
      simp only [List.foldl_cons, List.foldl_nil,
        digitVal_digitChar (n % 10) (Nat.mod_lt n (by omega))]
      omega

theorem isDigitC_bounds (c : Char) (h : isDigitC c = true) :
    48 ≤ c.toNat ∧ c.toNat ≤ 57 := by
  simp only [isDigitC, Bool.and_eq_true, decide_eq_true_eq] at h
  exact_mod_cast h

theorem digit_ne (c : Char) (h : isDigitC c = true) (m : ℕ) (hm : Nat.isValidChar m)
    (hne : m < 48 ∨ 57 < m) : c ≠ Char.ofNat m := by
  obtain ⟨h1, h2⟩ := isDigitC_bounds c h
  intro he
  have : c.toNat = m := by rw [he, toNat_charOfNat m hm]
  omega

theorem parseNumber_intRepr (n : ℤ) (rest : List Char) (hrest : noLeadingDigit rest) :
    parseNumber (intRepr n ++ rest) = some (n, rest) := by
  match n with
  | .ofNat m =>
    obtain ⟨d, ds, hds⟩ : ∃ d ds, natRepr m = d :: ds := by
      match h : natRepr m with
      | [] => exact absurd h (natRepr_ne_nil m)
      | d :: ds => exact ⟨d, ds, rfl⟩
    have hdig := natRepr_digits m
    rw [hds] at hdig
    have hd : isDigitC d = true := hdig d (List.mem_cons_self d ds)
    simp only [intRepr, hds, List.cons_append, parseNumber]
    rw [if_neg (digit_ne d hd 45 (Or.inl (by omega)) (by omega)), if_pos hd]
    have hrun := parseNatAux_run (d :: ds) rest 0 hdig hrest
    rw [List.cons_append] at hrun
    rw [hrun]
    rw [← hds, natRepr_foldl m]
    rfl
  | .negSucc m =>
    obtain ⟨d, ds, hds⟩ : ∃ d ds, natRepr (m + 1) = d :: ds := by
      match h : natRepr (m + 1) with
      | [] => exact absurd h (natRepr_ne_nil (m + 1))
      | d :: ds => exact ⟨d, ds, rfl⟩
    have hdig := natRepr_digits (m + 1)
    rw [hds] at hdig
    have hd : isDigitC d = true := hdig d (List.mem_cons_self d ds)
    have hrun := parseNatAux_run (d :: ds) rest 0 hdig hrest
    rw [List.cons_append] at hrun
    simp only [intRepr, hds, List.cons_append, parseNumber]
    rw [if_pos trivial]
    rw [if_pos hd, hrun, ← hds, natRepr_foldl (m + 1)]
    simp only [Int.negSucc_eq]
    norm_num

theorem hexVal_hexDig : ∀ d < 16, hexVal (hexDig d) = some d := by decide

/-- A character than can appear raw inside a serialized string and be
read back as itself: not the quote, not the backslash, not a control
character. -/
def safeKeyChar (c : Char) : Prop :=
  c ≠ Char.ofNat 34 ∧ c ≠ Char.ofNat 92 ∧ 32 ≤ c.toNat

instance (c : Char) : Decidable (safeKeyChar c) := by
  unfold safeKeyChar
  infer_instance

/-- A Char never encodes a surrogate code point. -/
theorem char_not_surrogate (c : Char) : c.toNat < 55296 ∨ 57343 < c.toNat := by
  have hv := c.valid
  rcases hv with h | ⟨h1, _⟩
  · left
    exact h
  · right
    exact h1

theorem char_lt_110000 (c : Char) : c.toNat < 1114112 := by
  show c.val.toNat < 1114112
  have hv := c.valid
  rcases hv with h | ⟨_, h2⟩
  · omega
  · exact h2

theorem parseEscape_u (v : ℕ) (hv : v < 65536) (hs : v < 55296 ∨ 57343 < v)
    (t : List Char) : parseEscape ('u' :: (hex4 v ++ t)) = some (Char.ofNat v, t) := by
  have e1 := hexVal_hexDig (v / 4096 % 16) (by omega)
  have e2 := hexVal_hexDig (v / 256 % 16) (by omega)
  have e3 := hexVal_hexDig (v / 16 % 16) (by omega)
  have e4 := hexVal_hexDig (v % 16) (by omega)
  rw [hex4]
  simp only [List.cons_append]
  rw [parseEscape]
  rw [if_neg (by decide : ¬('u' : Char) = Char.ofNat 34),
      if_neg (by decide : ¬('u' : Char) = Char.ofNat 92),
      if_neg (by decide : ¬('u' : Char) = Char.ofNat 47),
      if_neg (by decide : ¬('u' : Char) = 'b'),
      if_neg (by decide : ¬('u' : Char) = 'f'),
      if_neg (by decide : ¬('u' : Char) = 'n'),
      if_neg (by decide : ¬('u' : Char) = 'r'),
      if_neg (by decide : ¬('u' : Char) = 't'),
      if_pos (rfl : ('u' : Char) = 'u')]
  rw [e1, e2, e3, e4]
  dsimp only
  have hval : ((v / 4096 % 16 * 16 + v / 256 % 16) * 16 + v / 16 % 16) * 16 + v % 16 = v := by
    omega
  rw [hval]
  rw [if_neg (by omega : ¬(55296 ≤ v ∧ v ≤ 56319)),
      if_neg (by omega : ¬(56320 ≤ v ∧ v ≤ 57343))]
  rfl

theorem parseEscape_u_pair_aux (w1 w2 : ℕ)
    (h1 : 55296 ≤ w1 ∧ w1 ≤ 56319) (h2 : 56320 ≤ w2 ∧ w2 ≤ 57343) (t : List Char) :
    parseEscape ('u' :: (hex4 w1 ++ (Char.ofNat 92 :: 'u' :: (hex4 w2 ++ t)))) =
      some (Char.ofNat (65536 + (w1 - 55296) * 1024 + (w2 - 56320)), t) := by
  have e1 := hexVal_hexDig (w1 / 4096 % 16) (by omega)
  have e2 := hexVal_hexDig (w1 / 256 % 16) (by omega)
  have e3 := hexVal_hexDig (w1 / 16 % 16) (by omega)
  have e4 := hexVal_hexDig (w1 % 16) (by omega)
  have f1 := hexVal_hexDig (w2 / 4096 % 16) (by omega)
  have f2 := hexVal_hexDig (w2 / 256 % 16) (by omega)
  have f3 := hexVal_hexDig (w2 / 16 % 16) (by omega)
  have f4 := hexVal_hexDig (w2 % 16) (by omega)
  rw [hex4, hex4]
  simp only [List.cons_append]
  rw [parseEscape]
  rw [if_neg (by decide : ¬('u' : Char) = Char.ofNat 34),
      if_neg (by decide : ¬('u' : Char) = Char.ofNat 92),
      if_neg (by decide : ¬('u' : Char) = Char.ofNat 47),
      if_neg (by decide : ¬('u' : Char) = 'b'),
      if_neg (by decide : ¬('u' : Char) = 'f'),
      if_neg (by decide : ¬('u' : Char) = 'n'),
      if_neg (by decide : ¬('u' : Char) = 'r'),
      if_neg (by decide : ¬('u' : Char) = 't'),
      if_pos (rfl : ('u' : Char) = 'u')]
  rw [e1, e2, e3, e4]
  dsimp only
  have hval1 : ((w1 / 4096 % 16 * 16 + w1 / 256 % 16) * 16 + w1 / 16 % 16) * 16 + w1 % 16 =
      w1 := by omega
  rw [hval1]
  rw [if_pos (by omega : 55296 ≤ w1 ∧ w1 ≤ 56319)]
  simp only [List.nil_append]
  rw [if_pos (⟨trivial, trivial⟩ : True ∧ True)]
  rw [f1, f2, f3, f4]
  dsimp only
  have hval2 : ((w2 / 4096 % 16 * 16 + w2 / 256 % 16) * 16 + w2 / 16 % 16) * 16 + w2 % 16 =
      w2 := by omega
  rw [hval2]
  rw [if_pos (by omega : 56320 ≤ w2 ∧ w2 ≤ 57343)]

theorem parseEscape_u_pair (v : ℕ) (hlo : 65536 ≤ v) (hhi : v < 1114112) (t : List Char) :
    parseEscape ('u' :: (hex4 (55296 + (v - 65536) / 1024) ++
      (Char.ofNat 92 :: 'u' :: (hex4 (56320 + (v - 65536) % 1024) ++ t)))) =
      some (Char.ofNat v, t) := by
  rw [parseEscape_u_pair_aux (55296 + (v - 65536) / 1024) (56320 + (v - 65536) % 1024)
      (by omega) (by omega) t]
  have h : 65536 + (55296 + (v - 65536) / 1024 - 55296) * 1024 +
      (56320 + (v - 65536) % 1024 - 56320) = v := by omega
  rw [h]


theorem isWsChar_not (c : Char) (h : 33 ≤ c.toNat) : isWsChar c = false := by
  rw [Bool.eq_false_iff]
  intro hw
  simp only [isWsChar, Bool.or_eq_true, decide_eq_true_eq] at hw
  rcases hw with ((h1 | h2) | h3) | h4
  · subst h1
    exact absurd h (by decide)
  · subst h2
    exact absurd h (by decide)
  · subst h3
    exact absurd h (by decide)
  · subst h4
    exact absurd h (by decide)

theorem skipWs_cons_not (x : Char) (t : List Char) (hx : isWsChar x = false) :
    skipWs (x :: t) = x :: t := by
  rw [skipWs, hx]
  simp

theorem skipWs_ws_cons (w : List Char) (hw : ∀ c ∈ w, isWsChar c = true)
    (x : Char) (t : List Char) (hx : isWsChar x = false) :
    skipWs (w ++ (x :: t)) = x :: t := by
  induction w with
  | nil => exact skipWs_cons_not x t hx
  | cons d w ih =>
    rw [List.cons_append, skipWs, hw d (List.mem_cons_self d w)]
    simp only [if_true]
    exact ih (fun c hc => hw c (List.mem_cons_of_mem d hc))

theorem one_le_sizeV (v : JsonValue) : 1 ≤ sizeV v := by
  cases v <;> simp [sizeV]

/-- Decoding inverts escaping, one character at a time: a character is
either emitted raw (and is then neither quote, backslash nor control) or
as a backslash escape that parseEscape reads back exactly. -/
theorem escapeChar_decode (c : Char) :
    (escapeChar c = [c] ∧ c ≠ Char.ofNat 34 ∧ c ≠ Char.ofNat 92 ∧ ¬ c.toNat < 32) ∨
    (∃ e, escapeChar c = Char.ofNat 92 :: e ∧
      ∀ tail, parseEscape (e ++ tail) = some (c, tail)) := by
  by_cases h1 : c = Char.ofNat 34
  · subst h1
    right
    exact ⟨[Char.ofNat 34], by rw [escapeChar, if_pos rfl], fun tail => rfl⟩
  · by_cases h2 : c = Char.ofNat 92
    · subst h2
      right
      exact ⟨[Char.ofNat 92], by rw [escapeChar, if_neg h1, if_pos rfl], fun tail => rfl⟩
    · by_cases h3 : c = Char.ofNat 8
      · subst h3
        right
        exact ⟨['b'], by rw [escapeChar, if_neg h1, if_neg h2, if_pos rfl], fun tail => rfl⟩
      · by_cases h4 : c = Char.ofNat 9
        · subst h4
          right
          exact ⟨['t'],
            by rw [escapeChar, if_neg h1, if_neg h2, if_neg h3, if_pos rfl], fun tail => rfl⟩
        · by_cases h5 : c = Char.ofNat 10
          · subst h5
            right
            exact ⟨['n'],
              by rw [escapeChar, if_neg h1, if_neg h2, if_neg h3, if_neg h4, if_pos rfl],
              fun tail => rfl⟩
          · by_cases h6 : c = Char.ofNat 12
            · subst h6
              right
              exact ⟨['f'],
                by rw [escapeChar, if_neg h1, if_neg h2, if_neg h3, if_neg h4, if_neg h5,
                  if_pos rfl],
                fun tail => rfl⟩
            · by_cases h7 : c = Char.ofNat 13
              · subst h7
                right
                exact ⟨['r'],
                  by rw [escapeChar, if_neg h1, if_neg h2, if_neg h3, if_neg h4, if_neg h5,
                    if_neg h6, if_pos rfl],
                  fun tail => rfl⟩
              · by_cases hlt : c.toNat < 32
                · right
                  refine ⟨'u' :: hex4 c.toNat,
                    by rw [escapeChar, if_neg h1, if_neg h2, if_neg h3, if_neg h4, if_neg h5,
                      if_neg h6, if_neg h7, if_pos hlt],
                    fun tail => ?_⟩
                  rw [List.cons_append,
                    parseEscape_u c.toNat (by omega) (Or.inl (by omega)) tail, Char.ofNat_toNat]
                · by_cases hmid : c.toNat < 127
                  · left
                    exact ⟨by rw [escapeChar, if_neg h1, if_neg h2, if_neg h3, if_neg h4,
                      if_neg h5, if_neg h6, if_neg h7, if_neg hlt, if_pos hmid],
                      h1, h2, hlt⟩
                  · by_cases hbmp : c.toNat < 65536
                    · right
                      refine ⟨'u' :: hex4 c.toNat,
                        by rw [escapeChar, if_neg h1, if_neg h2, if_neg h3, if_neg h4,
                          if_neg h5, if_neg h6, if_neg h7, if_neg hlt, if_neg hmid,
                          if_pos hbmp],
                        fun tail => ?_⟩
                      rw [List.cons_append,
                        parseEscape_u c.toNat (by omega) (char_not_surrogate c) tail,
                        Char.ofNat_toNat]
                    · right
                      refine ⟨'u' :: (hex4 (55296 + (c.toNat - 65536) / 1024) ++
                          (Char.ofNat 92 :: 'u' :: hex4 (56320 + (c.toNat - 65536) % 1024))),
                        ?_, fun tail => ?_⟩
                      · rw [escapeChar, if_neg h1, if_neg h2, if_neg h3, if_neg h4,
                          if_neg h5, if_neg h6, if_neg h7, if_neg hlt, if_neg hmid,
                          if_neg hbmp]
                        simp [List.cons_append]
                      · have hp := parseEscape_u_pair c.toNat (by omega)
                          (char_lt_110000 c) tail
                        rw [Char.ofNat_toNat] at hp
                        rw [← hp]
                        congr 1

theorem escapeList_length (l : List Char) : l.length ≤ (escapeList l).length := by
  induction l with
  | nil => simp [escapeList]
  | cons c t ih =>
    have h1 : 1 ≤ (escapeChar c).length := by
      rcases escapeChar_decode c with ⟨hraw, _, _, _⟩ | ⟨e, he, _⟩
      · rw [hraw]
        simp
      · rw [he]
        simp
    calc (c :: t).length = 1 + t.length := by simp [Nat.add_comm]
    _ ≤ (escapeChar c).length + (escapeList t).length := Nat.add_le_add h1 ih
    _ = (escapeList (c :: t)).length := by simp [escapeList]

/-- Escaping then reading a string body is the identity, for any fuel
beyond the number of decoded characters. -/
theorem parseStrAux_round (l : List Char) : ∀ (fuel : ℕ) (rest : List Char),
    l.length < fuel →
    parseStrAux fuel (escapeList l ++ (Char.ofNat 34 :: rest)) = some (l, rest) := by
  induction l with
  | nil =>
    intro fuel rest hf
    match fuel with
    | f + 1 =>
      rw [show escapeList [] ++ (Char.ofNat 34 :: rest) = Char.ofNat 34 :: rest from rfl]
      rw [parseStrAux, if_pos rfl]
  | cons c l ih =>
    intro fuel rest hf
    match fuel with
    | f + 1 =>
      have hstep : escapeList (c :: l) = escapeChar c ++ escapeList l := by
        simp [escapeList]
      rcases escapeChar_decode c with ⟨hraw, hq, hb, hctl⟩ | ⟨e, he, hpe⟩
      · rw [hstep, hraw, List.singleton_append, List.cons_append]
        rw [parseStrAux, if_neg hq, if_neg hb, if_neg hctl,
          ih f rest (by simpa using hf)]
        rfl
      · rw [hstep, he, List.cons_append, List.cons_append]
        rw [parseStrAux, if_neg (by decide : ¬(Char.ofNat 92 : Char) = Char.ofNat 34),
          if_pos rfl]
        rw [List.append_assoc, hpe (escapeList l ++ (Char.ofNat 34 :: rest))]
        dsimp only
        rw [ih f rest (by simpa using hf)]
        rfl

/-- Reading back a raw, escape-free key: every character at least space,
no quote, no backslash. -/
theorem parseStrAux_raw (l : List Char) : ∀ (fuel : ℕ) (rest : List Char),
    (∀ c ∈ l, safeKeyChar c) → l.length < fuel →
    parseStrAux fuel (l ++ (Char.ofNat 34 :: rest)) = some (l, rest) := by
  induction l with
  | nil =>
    intro fuel rest _ hf
    match fuel with
    | f + 1 =>
      rw [List.nil_append, parseStrAux, if_pos rfl]
  | cons c l ih =>
    intro fuel rest hsafe hf
    match fuel with
    | f + 1 =>
      obtain ⟨hq, hb, hge⟩ := hsafe c (List.mem_cons_self c l)
      rw [List.cons_append, parseStrAux, if_neg hq, if_neg hb,
        if_neg (by omega : ¬ c.toNat < 32),
        ih f rest (fun x hx => hsafe x (List.mem_cons_of_mem c hx)) (by simpa using hf)]
      rfl


/-- Every serialized value starts with a printable, non-bracket-closing
character: never whitespace and never the closing square bracket. -/
theorem dumpsV_head (v : JsonValue) :
    ∃ c cs, dumpsV v = c :: cs ∧ 33 ≤ c.toNat ∧ c.toNat ≠ 93 := by
  cases v with
  | null => exact ⟨'n', _, rfl, by decide, by decide⟩
  | bool b =>
    cases b
    · exact ⟨'f', _, rfl, by decide, by decide⟩
    · exact ⟨'t', _, rfl, by decide, by decide⟩
  | int n =>
    match n with
    | .ofNat m =>
      obtain ⟨d, ds, hds⟩ : ∃ d ds, natRepr m = d :: ds := by
        match h : natRepr m with
        | [] => exact absurd h (natRepr_ne_nil m)
        | d :: ds => exact ⟨d, ds, rfl⟩
      have hd : isDigitC d = true := by
        have := natRepr_digits m
        rw [hds] at this
        exact this d (List.mem_cons_self d ds)
      obtain ⟨hb1, hb2⟩ := isDigitC_bounds d hd
      exact ⟨d, ds, hds, by omega, by omega⟩
    | .negSucc m => exact ⟨'-', _, rfl, by decide, by decide⟩
  | str s => exact ⟨Char.ofNat 34, _, rfl, by decide, by decide⟩
  | arr l =>
    cases l
    · exact ⟨'[', _, rfl, by decide, by decide⟩
    · exact ⟨'[', _, rfl, by decide, by decide⟩
  | obj m =>
    cases m
    · exact ⟨Char.ofNat 123, _, rfl, by decide, by decide⟩
    · exact ⟨Char.ofNat 123, _, rfl, by decide, by decide⟩

-- Fuel bounds: the size of a value never exceeds the length of its
-- serialization, so input length is always enough parsing fuel.
mutual
theorem sizeV_le_dumps : ∀ (v : JsonValue), sizeV v ≤ (dumpsV v).length
  | .null => by simp [sizeV, dumpsV]
  | .bool b => by cases b <;> simp [sizeV, dumpsV]
  | .int n => by
    match n with
    | .ofNat m =>
      obtain ⟨d, ds, hds⟩ : ∃ d ds, natRepr m = d :: ds := by
        match h : natRepr m with
        | [] => exact absurd h (natRepr_ne_nil m)
        | d :: ds => exact ⟨d, ds, rfl⟩
      show sizeV (.int (Int.ofNat m)) ≤ (natRepr m).length
      rw [hds]
      simp [sizeV]
    | .negSucc m =>
      show sizeV (.int (Int.negSucc m)) ≤ ('-' :: natRepr (m + 1)).length
      simp [sizeV]
  | .str s => by simp [sizeV, dumpsV]
  | .arr .nil => by simp [sizeV, sizeL, dumpsV]
  | .arr (.cons v t) => by
    have h1 := sizeV_le_dumps v
    have h2 := sizeL_le_dumps t
    simp only [sizeV, sizeL, dumpsV, List.length_cons, List.length_append,
      List.length_singleton]
    omega
  | .obj .nil => by simp [sizeV, sizeM, dumpsV]
  | .obj (.cons k v t) => by
    have h1 := sizeV_le_dumps v
    have h2 := sizeM_le_dumps t
    simp only [sizeV, sizeM, dumpsV, List.length_cons, List.length_append,
      List.length_singleton]
    omega
theorem sizeL_le_dumps : ∀ (l : JsonList), sizeL l ≤ (dumpsElems l).length
  | .nil => by simp [sizeL, dumpsElems]
  | .cons v t => by
    have h1 := sizeV_le_dumps v
    have h2 := sizeL_le_dumps t
    simp only [sizeL, dumpsElems, List.length_cons, List.length_append]
    omega
theorem sizeM_le_dumps : ∀ (m : JsonObj), sizeM m ≤ (dumpsMembers m).length
  | .nil => by simp [sizeM, dumpsMembers]
  | .cons k v t => by
    have h1 := sizeV_le_dumps v
    have h2 := sizeM_le_dumps t
    simp only [sizeM, dumpsMembers, List.length_cons, List.length_append]
    omega
end


theorem skipWs_cons_ws (x : Char) (t : List Char) (hx : isWsChar x = true) :
    skipWs (x :: t) = skipWs t := by
  rw [skipWs, hx]
  simp

theorem skipWs_dumps (w : List Char) (hw : ∀ c ∈ w, isWsChar c = true) (v : JsonValue)
    (rest : List Char) : skipWs (w ++ (dumpsV v ++ rest)) = dumpsV v ++ rest := by
  obtain ⟨c, cs, hc, h33, _⟩ := dumpsV_head v
  rw [hc, List.cons_append]
  exact skipWs_ws_cons w hw c (cs ++ rest) (isWsChar_not c h33)

theorem skipWs_dumps_nil (v : JsonValue) (rest : List Char) :
    skipWs (dumpsV v ++ rest) = dumpsV v ++ rest := by
  obtain ⟨c, cs, hc, h33, _⟩ := dumpsV_head v
  rw [hc, List.cons_append]
  exact skipWs_cons_not c (cs ++ rest) (isWsChar_not c h33)

theorem skipWs_member (k : String) (v : JsonValue) (X : List Char) :
    skipWs (dumpsMember1 k v ++ X) = dumpsMember1 k v ++ X := by
  rw [show dumpsMember1 k v ++ X =
      Char.ofNat 34 :: ((escapeString k ++ (Char.ofNat 34 :: ':' :: ' ' :: dumpsV v)) ++ X)
    from by simp only [dumpsMember1, List.cons_append]]
  exact skipWs_cons_not _ _ (by decide)

-- Simultaneous round trip for values, array tails and object tails: a
-- serialized value parses back to itself given fuel at least its size,
-- tolerating a whitespace run before a value and a non-digit continuation.
set_option maxHeartbeats 1000000 in
theorem rt_main : ∀ fuel : ℕ,
    (∀ (v : JsonValue) (w rest : List Char), sizeV v ≤ fuel →
      (∀ c ∈ w, isWsChar c = true) → noLeadingDigit rest →
      parseValue fuel (w ++ (dumpsV v ++ rest)) = some (v, rest)) ∧
    (∀ (v : JsonValue) (t : JsonList) (w rest : List Char),
      sizeL (.cons v t) ≤ fuel → (∀ c ∈ w, isWsChar c = true) →
      parseElems fuel (w ++ (dumpsV v ++ (dumpsElems t ++ (']' :: rest)))) =
        some (JsonList.cons v t, rest)) ∧
    (∀ (k : String) (v : JsonValue) (t : JsonObj) (rest : List Char),
      sizeM (.cons k v t) ≤ fuel →
      parseMembers fuel (dumpsMember1 k v ++ (dumpsMembers t ++ (Char.ofNat 125 :: rest))) =
        some (JsonObj.cons k v t, rest)) := by
  intro fuel
  induction fuel using Nat.strong_induction_on with
  | _ fuel IH =>
  refine ⟨?_, ?_, ?_⟩
  · intro v w rest hsz hw hrest
    obtain ⟨f, rfl⟩ : ∃ f, fuel = f + 1 :=
      ⟨fuel - 1, by have := one_le_sizeV v; omega⟩
    cases v with
    | null =>
      rw [parseValue, skipWs_dumps w hw .null rest]
      rfl
    | bool b =>
      cases b
      · rw [parseValue, skipWs_dumps w hw (.bool false) rest]
        rfl
      · rw [parseValue, skipWs_dumps w hw (.bool true) rest]
        rfl
    | int n =>
      rw [parseValue, skipWs_dumps w hw (.int n) rest]
      match n with
      | .ofNat m =>
        obtain ⟨d, ds, hds⟩ : ∃ d ds, natRepr m = d :: ds := by
          match h : natRepr m with
          | [] => exact absurd h (natRepr_ne_nil m)
          | d :: ds => exact ⟨d, ds, rfl⟩
        have hd : isDigitC d = true := by
          have hx := natRepr_digits m
          rw [hds] at hx
          exact hx d (List.mem_cons_self d ds)
        have hne : ∀ (x : Char), isDigitC x = false → ¬ d = x := by
          intro x hx he
          rw [he, hx] at hd
          exact Bool.false_ne_true hd
        have hshape : dumpsV (.int (Int.ofNat m)) ++ rest = d :: (ds ++ rest) := by
          show natRepr m ++ rest = d :: (ds ++ rest)
          rw [hds]
          rfl
        rw [hshape]
        dsimp only
        rw [if_neg (hne (Char.ofNat 123) (by decide)), if_neg (hne '[' (by decide)),
          if_neg (hne (Char.ofNat 34) (by decide)), if_neg (hne 't' (by decide)),
          if_neg (hne 'f' (by decide)), if_neg (hne 'n' (by decide))]
        have hnum : parseNumber (d :: (ds ++ rest)) = some ((Int.ofNat m : ℤ), rest) := by
          rw [show (d :: (ds ++ rest) : List Char) = intRepr (Int.ofNat m) ++ rest from by
            rw [show intRepr (Int.ofNat m) = natRepr m from rfl, hds]
            rfl]
          exact parseNumber_intRepr _ rest hrest
        rw [hnum]
      | .negSucc m =>
        have hshape : dumpsV (.int (Int.negSucc m)) ++ rest =
            '-' :: (natRepr (m + 1) ++ rest) := rfl
        rw [hshape]
        dsimp only
        rw [if_neg (by decide : ¬('-' : Char) = Char.ofNat 123),
          if_neg (by decide : ¬('-' : Char) = '['),
          if_neg (by decide : ¬('-' : Char) = Char.ofNat 34),
          if_neg (by decide : ¬('-' : Char) = 't'),
          if_neg (by decide : ¬('-' : Char) = 'f'),
          if_neg (by decide : ¬('-' : Char) = 'n')]
        have hnum : parseNumber ('-' :: (natRepr (m + 1) ++ rest)) =
            some ((Int.negSucc m : ℤ), rest) := by
          rw [show ('-' :: (natRepr (m + 1) ++ rest) : List Char) =
              intRepr (Int.negSucc m) ++ rest from by
            rw [show intRepr (Int.negSucc m) = '-' :: natRepr (m + 1) from rfl]
            rfl]
          exact parseNumber_intRepr _ rest hrest
        rw [hnum]
    | str s =>
      have hshape : dumpsV (.str s) ++ rest =
          Char.ofNat 34 :: (escapeList s.data ++ (Char.ofNat 34 :: rest)) := by
        show (Char.ofNat 34 :: (escapeList s.data ++ [Char.ofNat 34])) ++ rest = _
        rw [List.cons_append, List.append_assoc]
        rfl
      rw [parseValue, skipWs_dumps w hw (.str s) rest, hshape]
      dsimp only
      rw [if_neg (by decide : ¬(Char.ofNat 34 : Char) = Char.ofNat 123),
        if_neg (by decide : ¬(Char.ofNat 34 : Char) = '['), if_pos rfl]
      rw [parseStrAux_round s.data _ rest (by
        have := escapeList_length s.data
        simp only [List.length_append, List.length_cons]
        omega)]
    | arr l =>
      cases l with
      | nil =>
        rw [parseValue, skipWs_dumps w hw (.arr .nil) rest]
        rfl
      | cons vv tl =>
        simp only [sizeV] at hsz
        have hshape : dumpsV (.arr (.cons vv tl)) ++ rest =
            '[' :: (dumpsV vv ++ (dumpsElems tl ++ (']' :: rest))) := by
          show ('[' :: (dumpsV vv ++ dumpsElems tl ++ [']'])) ++ rest = _
          simp only [List.cons_append, List.append_assoc, List.singleton_append,
            List.nil_append]
        rw [parseValue, skipWs_dumps w hw (.arr (.cons vv tl)) rest, hshape]
        dsimp only
        rw [if_neg (by decide : ¬('[' : Char) = Char.ofNat 123), if_pos rfl]
        rw [skipWs_dumps_nil vv (dumpsElems tl ++ (']' :: rest))]
        obtain ⟨c, cs, hc, h33, h93⟩ := dumpsV_head vv
        rw [hc, List.cons_append]
        dsimp only
        rw [if_neg (show ¬ c = ']' from fun he => h93 (by rw [he]; decide))]
        rw [← List.cons_append, ← hc]
        have hE : parseElems f (dumpsV vv ++ (dumpsElems tl ++ (']' :: rest))) =
            some (.cons vv tl, rest) := by
          have h := (IH f (by omega)).2.1 vv tl [] rest (by omega)
            (fun c hc => absurd hc (List.not_mem_nil c))
          rwa [List.nil_append] at h
        rw [hE]
    | obj m =>
      cases m with
      | nil =>
        rw [parseValue, skipWs_dumps w hw (.obj .nil) rest]
        rfl
      | cons k vv tl =>
        simp only [sizeV] at hsz
        have hshape : dumpsV (.obj (.cons k vv tl)) ++ rest =
            Char.ofNat 123 ::
              (dumpsMember1 k vv ++ (dumpsMembers tl ++ (Char.ofNat 125 :: rest))) := by
          show (Char.ofNat 123 :: (dumpsMember1 k vv ++ dumpsMembers tl ++ [Char.ofNat 125]))
              ++ rest = _
          simp only [List.cons_append, List.append_assoc, List.singleton_append,
            List.nil_append]
        rw [parseValue, skipWs_dumps w hw (.obj (.cons k vv tl)) rest, hshape]
        dsimp only
        rw [if_pos rfl]
        rw [skipWs_member k vv (dumpsMembers tl ++ (Char.ofNat 125 :: rest))]
        rw [show dumpsMember1 k vv ++ (dumpsMembers tl ++ (Char.ofNat 125 :: rest)) =
            Char.ofNat 34 :: ((escapeString k ++ (Char.ofNat 34 :: ':' :: ' ' :: dumpsV vv)) ++
              (dumpsMembers tl ++ (Char.ofNat 125 :: rest)))
          from by simp only [dumpsMember1, List.cons_append]]
        dsimp only
        rw [if_neg (by decide : ¬(Char.ofNat 34 : Char) = Char.ofNat 125)]
        rw [show (Char.ofNat 34 :: ((escapeString k ++ (Char.ofNat 34 :: ':' :: ' ' :: dumpsV vv)) ++
              (dumpsMembers tl ++ (Char.ofNat 125 :: rest))) : List Char) =
            dumpsMember1 k vv ++ (dumpsMembers tl ++ (Char.ofNat 125 :: rest))
          from by simp only [dumpsMember1, List.cons_append]]
        rw [(IH f (by omega)).2.2 k vv tl rest (by omega)]
  · intro vv tl w rest hsz hw
    obtain ⟨f, rfl⟩ : ∃ f, fuel = f + 1 := by
      refine ⟨fuel - 1, ?_⟩
      have h1 : 1 ≤ sizeL (JsonList.cons vv tl) := by
        simp only [sizeL]
        omega
      omega
    simp only [sizeL] at hsz
    rw [parseElems]
    cases tl with
    | nil =>
      have hrest2 : noLeadingDigit (dumpsElems JsonList.nil ++ (']' :: rest)) :=
        show isDigitC ']' = false from rfl
      rw [(IH f (by omega)).1 vv w (dumpsElems JsonList.nil ++ (']' :: rest))
        (by omega) hw hrest2]
      rfl
    | cons v2 t2 =>
      simp only [sizeL] at hsz
      have hrest2 : noLeadingDigit (dumpsElems (JsonList.cons v2 t2) ++ (']' :: rest)) :=
        show isDigitC ',' = false from rfl
      rw [(IH f (by omega)).1 vv w (dumpsElems (JsonList.cons v2 t2) ++ (']' :: rest))
        (by omega) hw hrest2]
      dsimp only
      have hsh : dumpsElems (JsonList.cons v2 t2) ++ (']' :: rest) =
          ',' :: (' ' :: (dumpsV v2 ++ (dumpsElems t2 ++ (']' :: rest)))) := by
        show (',' :: ' ' :: (dumpsV v2 ++ dumpsElems t2)) ++ (']' :: rest) = _
        simp only [List.cons_append, List.append_assoc]
      rw [hsh, skipWs_cons_not ',' _ (by decide)]
      dsimp only
      rw [if_pos rfl]
      have hE2 : parseElems f (' ' :: (dumpsV v2 ++ (dumpsElems t2 ++ (']' :: rest)))) =
          some (.cons v2 t2, rest) := by
        have h := (IH f (by omega)).2.1 v2 t2 [' '] rest (by simp only [sizeL]; omega)
          (by
            intro c hc
            rw [List.mem_singleton] at hc
            subst hc
            decide)
        rwa [List.singleton_append] at h
      rw [hE2]
  · intro k vv tl rest hsz
    obtain ⟨f, rfl⟩ : ∃ f, fuel = f + 1 := by
      refine ⟨fuel - 1, ?_⟩
      have h1 : 1 ≤ sizeM (JsonObj.cons k vv tl) := by
        simp only [sizeM]
        omega
      omega
    simp only [sizeM] at hsz
    rw [show dumpsMember1 k vv ++ (dumpsMembers tl ++ (Char.ofNat 125 :: rest)) =
        Char.ofNat 34 :: (escapeList k.data ++ (Char.ofNat 34 :: ':' :: ' ' ::
          (dumpsV vv ++ (dumpsMembers tl ++ (Char.ofNat 125 :: rest)))))
      from by
        show (Char.ofNat 34 :: (escapeList k.data ++ (Char.ofNat 34 :: ':' :: ' ' :: dumpsV vv)))
            ++ (dumpsMembers tl ++ (Char.ofNat 125 :: rest)) = _
        simp only [List.cons_append, List.append_assoc]]
    rw [parseMembers]
    rw [if_pos rfl]
    rw [parseStrAux_round k.data _ _ (by
      have := escapeList_length k.data
      simp only [List.length_append, List.length_cons]
      omega)]
    dsimp only
    rw [skipWs_cons_not ':' _ (by decide)]
    dsimp only
    rw [if_pos rfl]
    have hV : parseValue f (' ' :: (dumpsV vv ++ (dumpsMembers tl ++ (Char.ofNat 125 :: rest)))) =
        some (vv, dumpsMembers tl ++ (Char.ofNat 125 :: rest)) := by
      have hrest2 : noLeadingDigit (dumpsMembers tl ++ (Char.ofNat 125 :: rest)) := by
        cases tl
        · exact show isDigitC (Char.ofNat 125) = false from rfl
        · exact show isDigitC ',' = false from rfl
      have h := (IH f (by omega)).1 vv [' '] (dumpsMembers tl ++ (Char.ofNat 125 :: rest))
        (by omega)
        (by
          intro c hc
          rw [List.mem_singleton] at hc
          subst hc
          decide)
        hrest2
      rwa [List.singleton_append] at h
    rw [hV]
    dsimp only
    cases tl with
    | nil => rfl
    | cons k2 v2 t2 =>
      simp only [sizeM] at hsz
      have hX : dumpsMembers (JsonObj.cons k2 v2 t2) ++ (Char.ofNat 125 :: rest) =
          ',' :: (' ' :: (dumpsMember1 k2 v2 ++
            (dumpsMembers t2 ++ (Char.ofNat 125 :: rest)))) := by
        show (',' :: ' ' :: (dumpsMember1 k2 v2 ++ dumpsMembers t2))
            ++ (Char.ofNat 125 :: rest) = _
        simp only [List.cons_append, List.append_assoc]
      rw [hX, skipWs_cons_not ',' _ (by decide)]
      dsimp only
      rw [if_pos rfl]
      rw [skipWs_cons_ws ' ' _ (by decide),
        skipWs_member k2 v2 (dumpsMembers t2 ++ (Char.ofNat 125 :: rest))]
      rw [(IH f (by omega)).2.2 k2 v2 t2 rest (by simp only [sizeM]; omega)]


theorem prettyLines_cons_head (kv : String × JsonValue) (t : List (String × JsonValue)) :
    ∃ cs, prettyLines (kv :: t) = Char.ofNat 34 :: cs := by
  cases t with
  | nil =>
    exact ⟨kv.1.data ++ (Char.ofNat 34 :: ':' :: dumpsV kv.2), rfl⟩
  | cons x ts =>
    refine ⟨(kv.1.data ++ (Char.ofNat 34 :: ':' :: dumpsV kv.2)) ++
      (',' :: Char.ofNat 10 :: prettyLines (x :: ts)), ?_⟩
    show (Char.ofNat 34 :: (kv.1.data ++ (Char.ofNat 34 :: ':' :: dumpsV kv.2))) ++
      (',' :: Char.ofNat 10 :: prettyLines (x :: ts)) = _
    rw [List.cons_append]

theorem skipWs_prettyLines (kv : String × JsonValue) (t : List (String × JsonValue))
    (X : List Char) :
    skipWs (prettyLines (kv :: t) ++ X) = prettyLines (kv :: t) ++ X := by
  obtain ⟨cs, hcs⟩ := prettyLines_cons_head kv t
  rw [hcs, List.cons_append]
  exact skipWs_cons_not _ _ (by decide)

/-- Reading back the body of the pretty format: raw keys, bare colon,
comma-newline separators, closed by newline and brace. -/
theorem parseMembers_pretty :
    ∀ (items : List (String × JsonValue)) (k : String) (v : JsonValue)
      (fuel : ℕ) (rest : List Char),
      sizeM (objOfList ((k, v) :: items)) ≤ fuel →
      (∀ kv ∈ (k, v) :: items, ∀ c ∈ kv.1.data, safeKeyChar c) →
      parseMembers fuel (prettyLines ((k, v) :: items) ++
        (Char.ofNat 10 :: Char.ofNat 125 :: rest)) =
        some (objOfList ((k, v) :: items), rest) := by
  intro items
  induction items with
  | nil =>
    intro k v fuel rest hsz hk
    obtain ⟨f, rfl⟩ : ∃ f, fuel = f + 1 := by
      refine ⟨fuel - 1, ?_⟩
      have h1 : 1 ≤ sizeM (objOfList [(k, v)]) := by
        simp only [objOfList, sizeM]
        omega
      omega
    simp only [objOfList, sizeM] at hsz
    rw [show prettyLines [(k, v)] ++ (Char.ofNat 10 :: Char.ofNat 125 :: rest) =
        Char.ofNat 34 :: (k.data ++ (Char.ofNat 34 :: ':' ::
          (dumpsV v ++ (Char.ofNat 10 :: Char.ofNat 125 :: rest))))
      from by
        show (Char.ofNat 34 :: k.data ++ (Char.ofNat 34 :: ':' :: dumpsV v))
            ++ (Char.ofNat 10 :: Char.ofNat 125 :: rest) = _
        simp only [List.cons_append, List.append_assoc]]
    rw [parseMembers]
    rw [if_pos rfl]
    rw [parseStrAux_raw k.data _ _ (hk (k, v) (List.mem_cons_self _ _)) (by
      simp only [List.length_append, List.length_cons]
      omega)]
    dsimp only
    rw [skipWs_cons_not ':' _ (by decide)]
    dsimp only
    rw [if_pos rfl]
    have hV : parseValue f
        (dumpsV v ++ (Char.ofNat 10 :: Char.ofNat 125 :: rest)) =
        some (v, Char.ofNat 10 :: Char.ofNat 125 :: rest) := by
      have h := (rt_main f).1 v [] (Char.ofNat 10 :: Char.ofNat 125 :: rest)
        (by omega) (fun c hc => absurd hc (List.not_mem_nil c))
        (show isDigitC (Char.ofNat 10) = false from rfl)
      rwa [List.nil_append] at h
    rw [hV]
    dsimp only
    rw [skipWs_cons_ws (Char.ofNat 10) _ (by decide),
      skipWs_cons_not (Char.ofNat 125) _ (by decide)]
    dsimp only
    rw [if_neg (by decide : ¬(Char.ofNat 125 : Char) = ','), if_pos rfl]
    rfl
  | cons kv2 items ih =>
    intro k v fuel rest hsz hk
    rcases kv2 with ⟨k2, v2⟩
    obtain ⟨f, rfl⟩ : ∃ f, fuel = f + 1 := by
      refine ⟨fuel - 1, ?_⟩
      have h1 : 1 ≤ sizeM (objOfList ((k, v) :: (k2, v2) :: items)) := by
        simp only [objOfList, sizeM]
        omega
      omega
    simp only [objOfList, sizeM] at hsz
    rw [show prettyLines ((k, v) :: (k2, v2) :: items) ++
          (Char.ofNat 10 :: Char.ofNat 125 :: rest) =
        Char.ofNat 34 :: (k.data ++ (Char.ofNat 34 :: ':' ::
          (dumpsV v ++ (',' :: (Char.ofNat 10 ::
            (prettyLines ((k2, v2) :: items) ++
              (Char.ofNat 10 :: Char.ofNat 125 :: rest)))))))
      from by
        show ((Char.ofNat 34 :: k.data ++ (Char.ofNat 34 :: ':' :: dumpsV v))
            ++ (',' :: Char.ofNat 10 :: prettyLines ((k2, v2) :: items)))
            ++ (Char.ofNat 10 :: Char.ofNat 125 :: rest) = _
        simp only [List.cons_append, List.append_assoc]]
    rw [parseMembers]
    rw [if_pos rfl]
    rw [parseStrAux_raw k.data _ _ (hk (k, v) (List.mem_cons_self _ _)) (by
      simp only [List.length_append, List.length_cons]
      omega)]
    dsimp only
    rw [skipWs_cons_not ':' _ (by decide)]
    dsimp only
    rw [if_pos rfl]
    have hV : parseValue f
        (dumpsV v ++ (',' :: (Char.ofNat 10 ::
          (prettyLines ((k2, v2) :: items) ++ (Char.ofNat 10 :: Char.ofNat 125 :: rest))))) =
        some (v, ',' :: (Char.ofNat 10 ::
          (prettyLines ((k2, v2) :: items) ++ (Char.ofNat 10 :: Char.ofNat 125 :: rest)))) := by
      have h := (rt_main f).1 v []
        (',' :: (Char.ofNat 10 ::
          (prettyLines ((k2, v2) :: items) ++ (Char.ofNat 10 :: Char.ofNat 125 :: rest))))
        (by omega) (fun c hc => absurd hc (List.not_mem_nil c))
        (show isDigitC ',' = false from rfl)
      rwa [List.nil_append] at h
    rw [hV]
    dsimp only
    rw [skipWs_cons_not ',' _ (by decide)]
    dsimp only
    rw [if_pos rfl]
    rw [skipWs_cons_ws (Char.ofNat 10) _ (by decide),
      skipWs_prettyLines (k2, v2) items (Char.ofNat 10 :: Char.ofNat 125 :: rest)]
    rw [ih k2 v2 f rest (by simp only [objOfList, sizeM]; omega)
      (fun kv hm => hk kv (List.mem_cons_of_mem _ hm))]
    rfl


theorem sizeM_objOfList_le_prettyLines (items : List (String × JsonValue)) :
    sizeM (objOfList items) ≤ (prettyLines items).length := by
  induction items with
  | nil => simp [objOfList, sizeM, prettyLines]
  | cons kv t ih =>
    rcases kv with ⟨k, v⟩
    cases t with
    | nil =>
      have h := sizeV_le_dumps v
      show sizeM (objOfList [(k, v)]) ≤ (prettyLine (k, v)).length
      simp only [objOfList, sizeM, prettyLine, List.length_cons, List.length_append]
      omega
    | cons kv2 t2 =>
      have h := sizeV_le_dumps v
      show sizeM (objOfList ((k, v) :: kv2 :: t2)) ≤
        (prettyLine (k, v) ++ (',' :: Char.ofNat 10 :: prettyLines (kv2 :: t2))).length
      simp only [objOfList, sizeM] at ih
      simp only [objOfList, sizeM, prettyLine, List.length_cons, List.length_append]
      omega

/-- Reading back a whole pretty output: opening brace and newline, the
member lines, closing newline and brace, for fuel beyond the object size. -/
theorem parseValue_pretty (items : List (String × JsonValue))
    (hk2 : ∀ kv ∈ items, ∀ c ∈ kv.1.data, safeKeyChar c)
    (fuel : ℕ) (hf : sizeM (objOfList items) + 1 ≤ fuel) :
    parseValue fuel (Char.ofNat 123 :: Char.ofNat 10 ::
      (prettyLines items ++ (Char.ofNat 10 :: [Char.ofNat 125]))) =
      some (.obj (objOfList items), []) := by
  obtain ⟨f, rfl⟩ : ∃ f, fuel = f + 1 := ⟨fuel - 1, by omega⟩
  rw [parseValue]
  rw [skipWs_cons_not (Char.ofNat 123) _ (by decide)]
  dsimp only
  rw [if_pos rfl]
  rw [skipWs_cons_ws (Char.ofNat 10) _ (by decide)]
  cases items with
  | nil =>
    rw [show prettyLines ([] : List (String × JsonValue)) ++
        (Char.ofNat 10 :: [Char.ofNat 125]) = Char.ofNat 10 :: [Char.ofNat 125] from rfl]
    rw [skipWs_cons_ws (Char.ofNat 10) _ (by decide),
      skipWs_cons_not (Char.ofNat 125) _ (by decide)]
    dsimp only
    rw [if_pos rfl]
    rfl
  | cons kv t =>
    rcases kv with ⟨k, v⟩
    rw [skipWs_prettyLines (k, v) t (Char.ofNat 10 :: [Char.ofNat 125])]
    obtain ⟨cs, hcs⟩ := prettyLines_cons_head (k, v) t
    rw [hcs, List.cons_append]
    dsimp only
    rw [if_neg (by decide : ¬(Char.ofNat 34 : Char) = Char.ofNat 125)]
    rw [← List.cons_append, ← hcs]
    rw [parseMembers_pretty t k v f []
      (by simp only [objOfList, sizeM] at hf ⊢; omega) hk2]

/-- C3: corrected.  The claim promises a full round trip for every
string-keyed mapping, but pretty_json_dumps interpolates each key RAW
into the line template, with no JSON escaping, so a key containing a
quote (or backslash, or a control character) yields output a standard
JSON reader rejects outright — see the counterexample below.  The
corrected statement: whenever every key character is safe (not a quote,
not a backslash, not a control character), the pretty output parses back
to an object carrying exactly the original key/value pairs up to
ordering, for every ordering of the input items.  (Values here range
over null, booleans, integers, strings, arrays and objects; floats are
outside the model.) -/
theorem pretty_json_dumps_roundtrip (dd : List (String × JsonValue))
    (hk : ∀ kv ∈ dd, ∀ c ∈ kv.1.data, safeKeyChar c) :
    ∃ items : List (String × JsonValue), items.Perm dd ∧
      jsonParse (pretty_json_dumps dd) = some (JsonValue.obj (objOfList items)) := by
  refine ⟨sortConfigItems dd, List.perm_insertionSort _ dd, ?_⟩
  have hk2 : ∀ kv ∈ sortConfigItems dd, ∀ c ∈ kv.1.data, safeKeyChar c :=
    fun kv hm => hk kv ((List.perm_insertionSort _ dd).mem_iff.mp hm)
  have hlen := sizeM_objOfList_le_prettyLines (sortConfigItems dd)
  have hpv := parseValue_pretty (sortConfigItems dd) hk2
    ((pretty_json_dumps dd).length + 1) (by
      have hL : (pretty_json_dumps dd).length =
          (prettyLines (sortConfigItems dd)).length + 4 := by
        show (Char.ofNat 123 :: Char.ofNat 10 ::
          (prettyLines (sortConfigItems dd) ++ (Char.ofNat 10 :: [Char.ofNat 125]))).length = _
        simp [List.length_cons, List.length_append]
      omega)
  rw [jsonParse]
  rw [show (pretty_json_dumps dd).data = Char.ofNat 123 :: Char.ofNat 10 ::
      (prettyLines (sortConfigItems dd) ++ (Char.ofNat 10 :: [Char.ofNat 125])) from rfl]
  rw [hpv]
  rfl

/-- C3 counterexample: a single-entry config whose key contains a double
quote.  The rendered line is the five characters quote, k, quote, v,
quote followed by colon and 1; a standard JSON reader fails on it, so
the parse returns nothing at all, let alone the original mapping. -/
theorem pretty_json_dumps_key_quote_unparseable :
    jsonParse (pretty_json_dumps
      [(String.mk ['k', Char.ofNat 34, 'v'], JsonValue.int 1)]) = none := rfl

/-- Concrete two-entry round trip, exercising the corrected statement at
keys b and a (deliberately unsorted). -/
theorem pretty_json_dumps_roundtrip_witness :
    ∃ items : List (String × JsonValue),
      items.Perm [(String.mk ['b'], JsonValue.int 2), (String.mk ['a'], JsonValue.null)] ∧
      jsonParse (pretty_json_dumps
        [(String.mk ['b'], JsonValue.int 2), (String.mk ['a'], JsonValue.null)]) =
        some (JsonValue.obj (objOfList items)) :=
  pretty_json_dumps_roundtrip
    [(String.mk ['b'], JsonValue.int 2), (String.mk ['a'], JsonValue.null)] (by decide)

end TaskSetUtils
